import Mathlib

/-!
Shallow embedding of the NDN FIB module (`fib.c`): fixed pools of FIB
entries and face bindings, insertion with child/parent inheritance,
longest-prefix lookup, removal by entry and by face.

Names are modelled as lists of components (`NdnName`); the external
three-way comparator `ndn_name_compare_block` is modelled from its
documented verdicts: `0` equal, `-2` first name a proper prefix of the
second, `2` second a proper prefix of the first, `±1` otherwise.

C pointers that can be `NULL` are modelled as `Option`; a dereference of
a null pointer or a read of an uninitialized variable is modelled as an
`Except.error` outcome, so runs of the code that would be undefined
behaviour in C are visible as errors.  `FaceRef` distinguishes pointers
into the face table (`FaceRef.face`) from pointers into the face-binding
pool (`FaceRef.slot`): both pointer kinds occur in the code and two
pointers to distinct objects are never equal.
-/

/-- A hierarchical NDN name: a list of components. -/
abbrev NdnName := List Nat

/-- Modelled external comparator `ndn_name_compare_block`: `0` for equal
names, `-2` when the first is a proper prefix of the second, `2` when the
second is a proper prefix of the first, `-1`/`1` on the first differing
component. -/
def ndn_name_compare_block : NdnName → NdnName → Int
  | [], [] => 0
  | [], _ :: _ => -2
  | _ :: _, [] => 2
  | a :: as, b :: bs =>
    if a < b then -1 else if b < a then 1 else ndn_name_compare_block as bs

/-- Modelled external `ndn_name_get_size_from_block`: the component count. -/
def ndn_name_get_size_from_block (n : NdnName) : Nat := n.length

/-- A C pointer value stored in a binding's `face` field: either a pointer
to a face-table entry (identified by id) or — as actually happens in the
parent-inherit loop of `ndn_fib_add` — a pointer to a slot of the
`_fib_faces` pool.  Pointers to distinct objects are never equal. -/
inductive FaceRef : Type
  | face (id : Nat)
  | slot (i : Nat)
deriving DecidableEq, Repr

/-- One slot of the `_fib` pool (`ndn_fib_entry_t`): an optional owned
name pointer (`pfx`, the source's `prefix` field, `none` = free slot),
the cached component count `plen`, and the binding list `fib_faces`,
stored as the list of `_fib_faces` slot indices in link order. -/
structure FibEntry : Type where
  pfx : Option NdnName
  plen : Nat
  fib_faces : List Nat
deriving DecidableEq, Repr

/-- The all-zero (free) entry slot, as left by `memset`. -/
def FibEntry.freeSlot : FibEntry := ⟨none, 0, []⟩

/-- The two static pools: `_fib` (entry slots) and `_fib_faces` (binding
slots; `none` = free, `some f` = bound to the pointer `f`). -/
structure FibState : Type where
  entries : List FibEntry
  faces : List (Option FaceRef)
deriving DecidableEq, Repr

/-- Runtime errors of the model: dereferencing a null `prefix` pointer,
reading the uninitialized local `entry` in `ndn_fib_lookup`, and
releasing a null shared-block pointer. -/
inductive Err : Type
  | nullPfxDeref
  | uninitRead
  | nullRelease
deriving DecidableEq, Repr

/-- `_fib[i]` (out-of-range reads yield the free slot; all uses are in range). -/
def getEntry (s : FibState) (i : Nat) : FibEntry := s.entries.getD i FibEntry.freeSlot

/-- Write `_fib[i]`. -/
def setEntry (s : FibState) (i : Nat) (e : FibEntry) : FibState :=
  { s with entries := s.entries.set i e }

/-- `_fib_faces[j].face`. -/
def faceAt (s : FibState) (j : Nat) : Option FaceRef := s.faces.getD j none

/-- Write `_fib_faces[j].face`. -/
def setFace (s : FibState) (j : Nat) (v : Option FaceRef) : FibState :=
  { s with faces := s.faces.set j v }

/-- The loop of `_fib_entry_add_face` over `_fib_faces` looking for an
unused binding slot (`face == NULL`), returning the first free index. -/
def findFreeFaceSlot : List (Option FaceRef) → Option Nat
  | [] => none
  | none :: _ => some 0
  | some _ :: rest => (findFreeFaceSlot rest).map (· + 1)

/-- The `LL_FOREACH` dedup test of `_fib_entry_add_face`: does entry `i`'s
binding list already contain a binding whose `face` field equals `f`? -/
def hasFace (s : FibState) (i : Nat) (f : FaceRef) : Bool :=
  (getEntry s i).fib_faces.any (fun j => faceAt s j = some f)

/-- `_fib_entry_add_face(entry, face)`: no-op success if a binding for
`f` already exists; otherwise claim the first free `_fib_faces` slot and
`LL_APPEND` it to the entry's list; `false` (with the state unchanged)
when the binding pool is exhausted. -/
def _fib_entry_add_face (s : FibState) (i : Nat) (f : FaceRef) : FibState × Bool :=
  if hasFace s i f then (s, true)
  else
    match findFreeFaceSlot s.faces with
    | some j =>
        let e := getEntry s i
        (setEntry (setFace s j (some f)) i { e with fib_faces := e.fib_faces ++ [j] }, true)
    | none => (s, false)

/-- Scan accumulator of `ndn_fib_add`'s entry loop: `first_free`, the
longest-ancestor tracker `max`/`max_plen`, the `match_found` flag, and
the number of `ndn_shared_block_release(prefix)` calls so far. -/
structure ScanAcc : Type where
  firstFree : Option Nat
  maxIdx : Option Nat
  maxPlen : Int
  matchFound : Bool
  releases : Nat
deriving DecidableEq, Repr

/-- Result of the entry-scan loop: an early `return -1` from inside the
loop, or loop completion with the final accumulator. -/
inductive ScanRes : Type
  | early (s : FibState) (releases : Nat)
  | done (s : FibState) (acc : ScanAcc)
deriving DecidableEq, Repr

/-- The entry-scan loop of `ndn_fib_add` (lines 65–103), transcribed
branch by branch.  Note the source's merged condition
`(entry->prefix == NULL) && (first_free == NULL)`: a free slot met after
`first_free` is already set falls through to the comparator and
dereferences the null `prefix`. -/
def addScan (p : NdnName) (f : FaceRef) :
    List Nat → FibState → ScanAcc → Except Err ScanRes
  | [], s, acc => .ok (.done s acc)
  | i :: rest, s, acc =>
    match (getEntry s i).pfx, acc.firstFree with
    | none, none => addScan p f rest s { acc with firstFree := some i }
    | none, some _ => .error .nullPfxDeref
    | some q, _ =>
      let r := ndn_name_compare_block p q
      if r = 0 then
        match _fib_entry_add_face s i f with
        | (s', true) =>
            addScan p f rest s' { acc with matchFound := true, releases := acc.releases + 1 }
        | (s', false) => .ok (.early s' (acc.releases + 1))
      else if r = -2 then
        match _fib_entry_add_face s i f with
        | (s', true) => addScan p f rest s' acc
        | (s', false) => .ok (.early s' acc.releases)
      else if r = 2 then
        if ((getEntry s i).plen : Int) > acc.maxPlen then
          addScan p f rest s { acc with maxIdx := some i, maxPlen := ((getEntry s i).plen : Int) }
        else addScan p f rest s acc
      else addScan p f rest s acc

/-- The parent-inherit loop (lines 128–137): for each binding slot `j`
of the ancestor's list, the source calls `_fib_entry_add_face(entry, tmp)`
with `tmp` the *binding slot pointer* (not `tmp->face`), modelled as
`FaceRef.slot j`.  On failure the loop stops and reports it. -/
def inheritFaces (k : Nat) : List Nat → FibState → FibState × Bool
  | [], s => (s, true)
  | j :: rest, s =>
    match _fib_entry_add_face s k (FaceRef.slot j) with
    | (s', true) => inheritFaces k rest s'
    | (s', false) => (s', false)

/-- State effect of `ndn_fib_remove`: clear every binding slot still on
the entry's list, then clear the entry slot itself. -/
def fibRemoveEntryCore (s : FibState) (i : Nat) : FibState :=
  setEntry (((getEntry s i).fib_faces).foldl (fun t j => setFace t j none) s) i
    FibEntry.freeSlot

/-- Outcome of `ndn_fib_add`: the C return value, the final pool state,
how many times the caller's `prefix` reference was released, and whether
it is stored in an entry at return. -/
structure AddOutcome : Type where
  ret : Int
  state : FibState
  releases : Nat
  stored : Bool
deriving DecidableEq, Repr

/-- `ndn_fib_add(prefix, face)` (lines 57–142): scan, then either the
exact-match path, the failure paths, or new-entry creation with
face attach and parent-inherit. -/
def ndn_fib_add (s : FibState) (p : NdnName) (f : FaceRef) : Except Err AddOutcome :=
  match addScan p f (List.range s.entries.length) s ⟨none, none, -1, false, 0⟩ with
  | .error e => .error e
  | .ok (.early s' rel) => .ok ⟨-1, s', rel, false⟩
  | .ok (.done s' acc) =>
    if acc.matchFound then .ok ⟨0, s', acc.releases, false⟩
    else
      match acc.firstFree with
      | none => .ok ⟨-1, s', acc.releases, false⟩
      | some k =>
        let s1 := setEntry s' k ⟨some p, ndn_name_get_size_from_block p, []⟩
        match _fib_entry_add_face s1 k f with
        | (s2, false) => .ok ⟨-1, setEntry s2 k FibEntry.freeSlot, acc.releases + 1, false⟩
        | (s2, true) =>
          match acc.maxIdx with
          | none => .ok ⟨0, s2, acc.releases, true⟩
          | some m =>
            match inheritFaces k (getEntry s2 m).fib_faces s2 with
            | (s3, true) => .ok ⟨0, s3, acc.releases, true⟩
            | (s3, false) => .ok ⟨-1, fibRemoveEntryCore s3 k, acc.releases + 1, false⟩

/-- The lookup loop (lines 148–158).  The source checks no slot for
`NULL` before comparing (`nullPfxDeref` on a free slot) and, on a match,
assigns the never-initialized local `entry` to `max`; a lookup that took
that assignment returns an indeterminate pointer (`uninitRead`). -/
def lookupScan (name : NdnName) :
    List Nat → FibState → Int → Bool → Except Err (Option Nat)
  | [], _, _, maxSet => if maxSet then .error .uninitRead else .ok none
  | i :: rest, s, maxPlen, maxSet =>
    match (getEntry s i).pfx with
    | none => .error .nullPfxDeref
    | some q =>
      let r := ndn_name_compare_block q name
      if (r = 0 ∨ r = -2) ∧ ((getEntry s i).plen : Int) > maxPlen then
        lookupScan name rest s ((getEntry s i).plen : Int) true
      else lookupScan name rest s maxPlen maxSet

/-- `ndn_fib_lookup(name)` (lines 144–160). -/
def ndn_fib_lookup (s : FibState) (name : NdnName) : Except Err (Option Nat) :=
  lookupScan name (List.range s.entries.length) s (-1) false

/-- `ndn_fib_init` (lines 162–165): `memset(&_fib, 0, sizeof(_fib))` —
only the entry pool is cleared; `_fib_faces` is left untouched. -/
def ndn_fib_init (s : FibState) : FibState :=
  { s with entries := List.replicate s.entries.length FibEntry.freeSlot }

/-- `ndn_fib_remove(entry)` (lines 167–178): clear all bindings, release
the entry's `prefix` (an error if it is null), clear the slot. -/
def ndn_fib_remove (s : FibState) (i : Nat) : Except Err FibState :=
  match (getEntry s i).pfx with
  | none => .error .nullRelease
  | some _ => .ok (fibRemoveEntryCore s i)

/-- Inner `LL_FOREACH_SAFE` of `ndn_fib_remove_face` over one entry's
binding list (snapshot of the list, as the macro walks saved `next`
pointers): matching bindings are unlinked via `LL_DELETE` — their slots
are *not* cleared — and when the list empties the entry is removed. -/
def rfScanEntry (f : FaceRef) (i : Nat) : List Nat → FibState → Except Err FibState
  | [], s => .ok s
  | j :: rest, s =>
    if faceAt s j = some f then
      let e := getEntry s i
      let s1 := setEntry s i { e with fib_faces := e.fib_faces.erase j }
      if (getEntry s1 i).fib_faces = [] then
        match (getEntry s1 i).pfx with
        | none => .error .nullRelease
        | some _ => rfScanEntry f i rest (fibRemoveEntryCore s1 i)
      else rfScanEntry f i rest s1
    else rfScanEntry f i rest s

/-- Outer loop of `ndn_fib_remove_face` over all entry slots. -/
def rfOuter (f : FaceRef) : List Nat → FibState → Except Err FibState
  | [], s => .ok s
  | i :: rest, s =>
    match rfScanEntry f i (getEntry s i).fib_faces s with
    | .error e => .error e
    | .ok s' => rfOuter f rest s'

/-- `ndn_fib_remove_face(face)` (lines 180–195). -/
def ndn_fib_remove_face (s : FibState) (f : FaceRef) : Except Err FibState :=
  rfOuter f (List.range s.entries.length) s

/-- The program-start state: both static pools zero-initialized, with
`ne` entry slots and `nf` binding slots. -/
def initState (ne nf : Nat) : FibState :=
  ⟨List.replicate ne FibEntry.freeSlot, List.replicate nf none⟩

/-- One FIB operation, for stating properties of operation sequences. -/
inductive Op : Type
  | add (p : NdnName) (f : FaceRef)
  | remove (i : Nat)
  | removeFace (f : FaceRef)
deriving DecidableEq, Repr

/-- Run one operation, keeping only the state. -/
def runOp (s : FibState) : Op → Except Err FibState
  | .add p f =>
    match ndn_fib_add s p f with
    | .error e => .error e
    | .ok out => .ok out.state
  | .remove i => ndn_fib_remove s i
  | .removeFace f => ndn_fib_remove_face s f

/-- Run a sequence of operations. -/
def runOps : FibState → List Op → Except Err FibState
  | s, [] => .ok s
  | s, op :: rest =>
    match runOp s op with
    | .error e => .error e
    | .ok s' => runOps s' rest

/-- `N` consecutive `ndn_fib_add` calls with the same arguments,
keeping only the state. -/
def addNState (p : NdnName) (f : FaceRef) : FibState → Nat → Except Err FibState
  | s, 0 => .ok s
  | s, n + 1 =>
    match ndn_fib_add s p f with
    | .error e => .error e
    | .ok out => addNState p f out.state n

/-- `p` is a strictly shorter leading sub-sequence of `q` (the spec's
"proper ancestor"). -/
def ProperAncestor (p q : NdnName) : Prop := p <+: q ∧ p ≠ q

instance (p q : NdnName) : Decidable (ProperAncestor p q) := by
  unfold ProperAncestor; infer_instance

/-- No two occupied entry slots hold equal prefixes: two distinct slots
whose stored prefixes agree must be free. -/
def DistinctPrefixes (s : FibState) : Prop :=
  ∀ i < s.entries.length, ∀ j < s.entries.length, i ≠ j →
    (getEntry s i).pfx = (getEntry s j).pfx → (getEntry s i).pfx = none

set_option synthInstance.maxSize 1000 in
instance (s : FibState) : Decidable (DistinctPrefixes s) := by
  unfold DistinctPrefixes; infer_instance

/-! ### Concrete tables used as evidence for individual claims -/

/-- A full one-slot table holding `/a` (components as numbers: `/a = [0]`)
reachable through face 1 via binding slot 0. -/
def c1Full : FibState := ⟨[⟨some [0], 1, [0]⟩], [some (FaceRef.face 1)]⟩

/-- A table holding `/a` at slot 0 with slot 1 free. -/
def c1Free : FibState :=
  ⟨[⟨some [0], 1, [0]⟩, FibEntry.freeSlot], [some (FaceRef.face 1), none]⟩

/-- Claim C1: the claim says `ndn_fib_lookup` returns the occupied entry of
greatest prefix length among those whose prefix equals or properly precedes
the query, and no match otherwise.  The code cannot do either: on a full
table with an exact match it copies the never-initialized local `entry`
into `max` (an indeterminate pointer is returned), and on a table with a
free slot it dereferences the free slot's null `prefix`.  Both failures
are evaluated here at concrete tables. -/
theorem c1_lookup_broken :
    ndn_fib_lookup c1Full [0] = .error .uninitRead ∧
    ndn_fib_lookup c1Free [9] = .error .nullPfxDeref :=
  ⟨rfl, rfl⟩

/-- Table with `/a → {face 1}` at slot 0 and a free entry slot. -/
def c2Parent : FibState :=
  ⟨[⟨some [0], 1, [0]⟩, FibEntry.freeSlot], [some (FaceRef.face 1), none, none]⟩

/-- Claim C2: inserting `/a/b` with face 2 while `/a → {face 1}` exists
should, per the claim, leave `/a/b` with exactly faces 1 and 2.  The
inherit loop passes the binding-slot pointer `tmp` instead of
`tmp->face`, so the new entry ends with face 2 and a pointer to binding
slot 0 — face 1 is not in its list. -/
theorem c2_parent_inherit_broken :
    ndn_fib_add c2Parent [0, 1] (FaceRef.face 2) =
      .ok ⟨0, ⟨[⟨some [0], 1, [0]⟩, ⟨some [0, 1], 2, [1, 2]⟩],
               [some (FaceRef.face 1), some (FaceRef.face 2), some (FaceRef.slot 0)]⟩,
            0, true⟩ ∧
    hasFace ⟨[⟨some [0], 1, [0]⟩, ⟨some [0, 1], 2, [1, 2]⟩],
             [some (FaceRef.face 1), some (FaceRef.face 2), some (FaceRef.slot 0)]⟩
      1 (FaceRef.face 1) = false :=
  ⟨rfl, rfl⟩

/-- A full one-slot table holding `/b = [1]`. -/
def c4Full : FibState := ⟨[⟨some [1], 1, [0]⟩], [some (FaceRef.face 0)]⟩

/-- A full one-slot table holding `/a/b = [0,1]` with the binding pool full. -/
def c4Tight : FibState := ⟨[⟨some [0, 1], 2, [0]⟩], [some (FaceRef.face 1)]⟩

/-- Claim C4: the claim says every return path consumes the caller's
`prefix` exactly once.  Two failure paths consume it zero times (a leak):
the entry-pool-exhausted path (`first_free == NULL`, first conjunct) and
the child-inherit attach-failure path (second conjunct) both return `-1`
with `releases = 0` and the reference not stored anywhere. -/
theorem c4_prefix_leaked :
    ndn_fib_add c4Full [0] (FaceRef.face 2) = .ok ⟨-1, c4Full, 0, false⟩ ∧
    ndn_fib_add c4Tight [0] (FaceRef.face 2) = .ok ⟨-1, c4Tight, 0, false⟩ :=
  ⟨rfl, rfl⟩

/-- A used state: one occupied entry and one bound binding slot. -/
def c5Used : FibState := ⟨[⟨some [0], 1, [0]⟩], [some (FaceRef.face 0)]⟩

/-- Claim C5: the claim says `init` leaves both pools all-free.  The code
runs `memset` only on `_fib`: the entry pool is cleared but binding slot 0
still holds its face reference afterwards. -/
theorem c5_init_leaves_binding_pool :
    ndn_fib_init c5Used = ⟨[FibEntry.freeSlot], [some (FaceRef.face 0)]⟩ ∧
    (ndn_fib_init c5Used).faces ≠ List.replicate (ndn_fib_init c5Used).faces.length none :=
  ⟨rfl, by decide⟩

/-- Table with `/a` bound to faces 0 and 1 through binding slots 0, 1. -/
def c6Two : FibState :=
  ⟨[⟨some [0], 1, [0, 1]⟩], [some (FaceRef.face 0), some (FaceRef.face 1)]⟩

/-- Table with `/a` bound only to face 0 through binding slot 0. -/
def c6One : FibState := ⟨[⟨some [0], 1, [0]⟩], [some (FaceRef.face 0), none]⟩

/-- Claim C6: the claim says every binding slot that referenced the removed
face is cleared back to the free state.  `ndn_fib_remove_face` only
`LL_DELETE`s the binding: afterwards slot 0 is on no entry's list but still
holds `face 0`, so it is never reusable (first conjunct).  Even when the
entry empties and is removed, the unlinked slot keeps its face reference
(second conjunct). -/
theorem c6_binding_slot_not_cleared :
    ndn_fib_remove_face c6Two (FaceRef.face 0) =
      .ok ⟨[⟨some [0], 1, [1]⟩], [some (FaceRef.face 0), some (FaceRef.face 1)]⟩ ∧
    ndn_fib_remove_face c6One (FaceRef.face 0) =
      .ok ⟨[FibEntry.freeSlot], [some (FaceRef.face 0), none]⟩ :=
  ⟨rfl, rfl⟩

/-- Claim C10: the claim says the scans of insert and lookup never invoke
the comparator on a free slot.  Insert's merged condition
`(entry->prefix == NULL) && (first_free == NULL)` lets every free slot
after the first fall through to the comparator (null dereference): the
very first insert into an empty two-slot table crashes.  Lookup has no
null check at all: it crashes on the first free slot it scans. -/
theorem c10_comparator_hits_free_slots :
    ndn_fib_add (initState 2 2) [0] (FaceRef.face 0) = .error .nullPfxDeref ∧
    ndn_fib_lookup (initState 1 1) [0] = .error .nullPfxDeref :=
  ⟨rfl, rfl⟩

/-- Binding-pool-full table with descendants `/a/b → {face 0}` and
`/a/c → {face 1}` of the yet-unregistered `/a`. -/
def c3Tight : FibState :=
  ⟨[⟨some [0, 1], 2, [0]⟩, ⟨some [0, 2], 2, [1]⟩],
   [some (FaceRef.face 0), some (FaceRef.face 1)]⟩

/-- Claim C3 counterexample: inserting `/a` with face 2 while the binding
pool is exhausted returns `-1` from inside the scan with the state
unchanged: the occupied entry `/a/c`, whose prefix has `/a` as a proper
ancestor, never receives face 2, contradicting the claim that every such
entry gets the face attached on every insert. -/
theorem c3_counterexample :
    ndn_fib_add c3Tight [0] (FaceRef.face 2) = .ok ⟨-1, c3Tight, 0, false⟩ ∧
    ProperAncestor [0] [0, 2] ∧
    (getEntry c3Tight 1).pfx = some [0, 2] ∧
    hasFace c3Tight 1 (FaceRef.face 2) = false :=
  ⟨rfl, by decide, rfl, rfl⟩

/-- Entry-pool-full table `/a/b → {face 1}` with a free binding slot. -/
def c9Full : FibState := ⟨[⟨some [0, 1], 2, [0]⟩], [some (FaceRef.face 1), none]⟩

/-- Claim C9 counterexample: with the entry pool full, inserting the novel
prefix `/a` fails with `-1`, but pool occupancy is *not* unchanged: the
child-inherit step executed during the scan has bound binding slot 1 to
face 2, and that binding remains visible after the failure. -/
theorem c9_counterexample :
    ndn_fib_add c9Full [0] (FaceRef.face 2) =
      .ok ⟨-1, ⟨[⟨some [0, 1], 2, [0, 1]⟩],
                [some (FaceRef.face 1), some (FaceRef.face 2)]⟩, 0, false⟩ ∧
    (⟨[⟨some [0, 1], 2, [0, 1]⟩],
      [some (FaceRef.face 1), some (FaceRef.face 2)]⟩ : FibState).faces ≠ c9Full.faces :=
  ⟨rfl, by decide⟩

/-! ### Basic lemmas about list access and update -/

theorem set_oob {α : Type} : ∀ (l : List α) (i : Nat) (a : α), l.length ≤ i → l.set i a = l
  | [], _, _, _ => rfl
  | _ :: _, 0, _, h => absurd h (by simp)
  | x :: xs, i + 1, a, h => by
    simpa [List.set] using set_oob xs i a (Nat.le_of_succ_le_succ h)

theorem getD_set_eq {α : Type} :
    ∀ (l : List α) (i : Nat) (a d : α), i < l.length → (l.set i a).getD i d = a
  | [], i, _, _, h => absurd h (by simp)
  | _ :: _, 0, _, _, _ => rfl
  | _ :: xs, i + 1, a, d, h => getD_set_eq xs i a d (Nat.lt_of_succ_lt_succ h)

theorem getD_set_ne {α : Type} :
    ∀ (l : List α) (i j : Nat) (a d : α), i ≠ j → (l.set i a).getD j d = l.getD j d
  | [], _, _, _, _, _ => rfl
  | _ :: _, 0, 0, _, _, h => absurd rfl h
  | _ :: _, 0, _ + 1, _, _, _ => rfl
  | _ :: _, _ + 1, 0, _, _, _ => rfl
  | _ :: xs, i + 1, j + 1, a, d, h =>
    getD_set_ne xs i j a d (fun e => h (congrArg Nat.succ e))

theorem getD_replicate {α : Type} :
    ∀ (n i : Nat) (x d : α), (List.replicate n x).getD i d = x ∨ (List.replicate n x).getD i d = d
  | 0, _, _, _ => Or.inr rfl
  | _ + 1, 0, _, _ => Or.inl rfl
  | n + 1, i + 1, x, d => getD_replicate n i x d

/-! ### Lemmas about the name comparator -/

theorem cmpBlock_self (p : NdnName) : ndn_name_compare_block p p = 0 := by
  induction p with
  | nil => rfl
  | cons a as ih => simp [ndn_name_compare_block, lt_irrefl, ih]

theorem cmpBlock_eq_zero_iff : ∀ p q : NdnName, ndn_name_compare_block p q = 0 ↔ p = q := by
  intro p
  induction p with
  | nil => intro q; cases q <;> simp [ndn_name_compare_block]
  | cons a as ih =>
    intro q
    cases q with
    | nil => simp [ndn_name_compare_block]
    | cons b bs =>
      by_cases hab : a < b
      · have hne : a ≠ b := Nat.ne_of_lt hab
        simp only [ndn_name_compare_block, if_pos hab, List.cons.injEq]
        constructor
        · intro h; omega
        · rintro ⟨h, -⟩; exact absurd h hne
      · by_cases hba : b < a
        · have hne : a ≠ b := fun h => absurd h.symm (Nat.ne_of_lt hba)
          simp only [ndn_name_compare_block, if_neg hab, if_pos hba, List.cons.injEq]
          constructor
          · intro h; omega
          · rintro ⟨h, -⟩; exact absurd h hne
        · have hab' : a = b := Nat.le_antisymm (Nat.le_of_not_lt hba) (Nat.le_of_not_lt hab)
          subst hab'
          simp [ndn_name_compare_block, lt_irrefl, ih bs]

theorem cmpBlock_swap : ∀ p q : NdnName, ndn_name_compare_block p q = -ndn_name_compare_block q p := by
  intro p
  induction p with
  | nil => intro q; cases q <;> rfl
  | cons a as ih =>
    intro q
    cases q with
    | nil => rfl
    | cons b bs =>
      by_cases hab : a < b
      · have hba : ¬ b < a := by omega
        simp [ndn_name_compare_block, hab, hba]
      · by_cases hba : b < a
        · simp [ndn_name_compare_block, hab, hba]
        · simp [ndn_name_compare_block, hab, hba, ih bs]

theorem cmpBlock_neg_two_iff :
    ∀ p q : NdnName, ndn_name_compare_block p q = -2 ↔ ProperAncestor p q := by
  intro p
  induction p with
  | nil =>
    intro q
    cases q with
    | nil => simp [ndn_name_compare_block, ProperAncestor]
    | cons b bs => simp [ndn_name_compare_block, ProperAncestor]
  | cons a as ih =>
    intro q
    cases q with
    | nil =>
      simp only [ndn_name_compare_block, ProperAncestor, List.prefix_nil]
      constructor
      · intro h; omega
      · rintro ⟨h, -⟩; cases h
    | cons b bs =>
      by_cases hab : a < b
      · have hne : a ≠ b := Nat.ne_of_lt hab
        simp only [ndn_name_compare_block, if_pos hab, ProperAncestor,
          List.cons_prefix_cons, ne_eq, List.cons.injEq]
        constructor
        · intro h; omega
        · rintro ⟨⟨h, -⟩, -⟩; exact absurd h hne
      · by_cases hba : b < a
        · have hne : a ≠ b := fun h => absurd h.symm (Nat.ne_of_lt hba)
          simp only [ndn_name_compare_block, if_neg hab, if_pos hba, ProperAncestor,
            List.cons_prefix_cons, ne_eq, List.cons.injEq]
          constructor
          · intro h; omega
          · rintro ⟨⟨h, -⟩, -⟩; exact absurd h hne
        · have hab' : a = b := Nat.le_antisymm (Nat.le_of_not_lt hba) (Nat.le_of_not_lt hab)
          subst hab'
          have : ProperAncestor (a :: as) (a :: bs) ↔ ProperAncestor as bs := by
            simp [ProperAncestor, List.cons_prefix_cons]
          rw [this, ← ih bs]
          simp [ndn_name_compare_block, lt_irrefl]

theorem cmpBlock_two_iff (p q : NdnName) :
    ndn_name_compare_block p q = 2 ↔ ProperAncestor q p := by
  rw [cmpBlock_swap p q, ← cmpBlock_neg_two_iff q p]
  omega

/-! ### State access lemmas -/

theorem getEntry_setFace (s : FibState) (j : Nat) (v : Option FaceRef) (i : Nat) :
    getEntry (setFace s j v) i = getEntry s i := rfl

theorem faceAt_setEntry (s : FibState) (i : Nat) (e : FibEntry) (j : Nat) :
    faceAt (setEntry s i e) j = faceAt s j := rfl

theorem getEntry_setEntry_eq (s : FibState) (i : Nat) (e : FibEntry) (h : i < s.entries.length) :
    getEntry (setEntry s i e) i = e := getD_set_eq _ _ _ _ h

theorem getEntry_setEntry_ne (s : FibState) (i : Nat) (e : FibEntry) (i' : Nat) (h : i ≠ i') :
    getEntry (setEntry s i e) i' = getEntry s i' := getD_set_ne _ _ _ _ _ h

theorem faceAt_setFace_eq (s : FibState) (j : Nat) (v : Option FaceRef) (h : j < s.faces.length) :
    faceAt (setFace s j v) j = v := getD_set_eq _ _ _ _ h

theorem faceAt_setFace_ne (s : FibState) (j : Nat) (v : Option FaceRef) (j' : Nat) (h : j ≠ j') :
    faceAt (setFace s j v) j' = faceAt s j' := getD_set_ne _ _ _ _ _ h

theorem entries_length_setEntry (s : FibState) (i : Nat) (e : FibEntry) :
    (setEntry s i e).entries.length = s.entries.length := by simp [setEntry]

theorem faces_length_setFace (s : FibState) (j : Nat) (v : Option FaceRef) :
    (setFace s j v).faces.length = s.faces.length := by simp [setFace]

theorem findFreeFaceSlot_spec :
    ∀ (l : List (Option FaceRef)) (j : Nat), findFreeFaceSlot l = some j →
      l.getD j none = none ∧ j < l.length
  | [], j, h => by simp [findFreeFaceSlot] at h
  | none :: rest, j, h => by
    simp [findFreeFaceSlot] at h
    subst h
    simp
  | some v :: rest, j, h => by
    simp only [findFreeFaceSlot, Option.map_eq_some'] at h
    obtain ⟨j', hj', rfl⟩ := h
    have := findFreeFaceSlot_spec rest j' hj'
    simpa using this

/-! ### The `Evolves` relation: what attaches (and hence whole scans) do
to the pools: entry prefixes, lengths and `plen`s are untouched, binding
lists only grow at the tail, bound slots stay bound to the same face. -/

structure Evolves (s s' : FibState) : Prop where
  entLen : s'.entries.length = s.entries.length
  faceLen : s'.faces.length = s.faces.length
  pfxEq : ∀ i, (getEntry s' i).pfx = (getEntry s i).pfx
  plenEq : ∀ i, (getEntry s' i).plen = (getEntry s i).plen
  listPre : ∀ i, (getEntry s i).fib_faces <+: (getEntry s' i).fib_faces
  faceMono : ∀ j g, faceAt s j = some g → faceAt s' j = some g

theorem evolves_refl (s : FibState) : Evolves s s :=
  ⟨Eq.refl _, Eq.refl _, fun _ => Eq.refl _, fun _ => Eq.refl _,
   fun _ => List.prefix_rfl, fun _ _ h => h⟩

theorem Evolves.comp {s t u : FibState} (h1 : Evolves s t) (h2 : Evolves t u) : Evolves s u :=
  ⟨h2.entLen.trans h1.entLen, h2.faceLen.trans h1.faceLen,
   fun i => (h2.pfxEq i).trans (h1.pfxEq i),
   fun i => (h2.plenEq i).trans (h1.plenEq i),
   fun i => (h1.listPre i).trans (h2.listPre i),
   fun j g h => h2.faceMono j g (h1.faceMono j g h)⟩

/-! ### Lemmas about `_fib_entry_add_face` -/

theorem getEntry_setEntry_oob (s : FibState) (i : Nat) (e : FibEntry)
    (h : s.entries.length ≤ i) (i' : Nat) : getEntry (setEntry s i e) i' = getEntry s i' := by
  simp [setEntry, set_oob _ _ _ h, getEntry]

theorem addFace_eq_of_hasFace (s : FibState) (i : Nat) (f : FaceRef)
    (h1 : hasFace s i f = true) : _fib_entry_add_face s i f = (s, true) := by
  simp [_fib_entry_add_face, h1]

theorem addFace_eq_of_free (s : FibState) (i : Nat) (f : FaceRef) (j : Nat)
    (h1 : hasFace s i f = false) (h2 : findFreeFaceSlot s.faces = some j) :
    _fib_entry_add_face s i f =
      (setEntry (setFace s j (some f)) i
        { getEntry s i with fib_faces := (getEntry s i).fib_faces ++ [j] }, true) := by
  simp [_fib_entry_add_face, h1, h2]

theorem addFace_eq_of_exhausted (s : FibState) (i : Nat) (f : FaceRef)
    (h1 : hasFace s i f = false) (h2 : findFreeFaceSlot s.faces = none) :
    _fib_entry_add_face s i f = (s, false) := by
  simp [_fib_entry_add_face, h1, h2]

theorem addFace_fail_state (s : FibState) (i : Nat) (f : FaceRef)
    (h : (_fib_entry_add_face s i f).2 = false) : (_fib_entry_add_face s i f).1 = s := by
  by_cases h1 : hasFace s i f = true
  · rw [addFace_eq_of_hasFace s i f h1] at h
    simp at h
  · rcases h2 : findFreeFaceSlot s.faces with _ | j
    · rw [addFace_eq_of_exhausted s i f (Bool.eq_false_iff.mpr h1) h2]
    · rw [addFace_eq_of_free s i f j (Bool.eq_false_iff.mpr h1) h2] at h
      simp at h

theorem addFace_evolves (s : FibState) (i : Nat) (f : FaceRef) :
    Evolves s (_fib_entry_add_face s i f).1 := by
  by_cases h1 : hasFace s i f = true
  · rw [addFace_eq_of_hasFace s i f h1]
    exact evolves_refl s
  · rcases h2 : findFreeFaceSlot s.faces with _ | j
    · rw [addFace_eq_of_exhausted s i f (Bool.eq_false_iff.mpr h1) h2]
      exact evolves_refl s
    · obtain ⟨hfree, hlt⟩ := findFreeFaceSlot_spec _ _ h2
      rw [addFace_eq_of_free s i f j (Bool.eq_false_iff.mpr h1) h2]
      refine ⟨by simp [setEntry, setFace], by simp [setEntry, setFace], ?_, ?_, ?_, ?_⟩
      · intro i'
        rcases Nat.lt_or_ge i s.entries.length with hlen | hlen
        · by_cases hii : i = i'
          · subst hii
            rw [getEntry_setEntry_eq _ _ _ (by simpa [setFace] using hlen)]
          · rw [getEntry_setEntry_ne _ _ _ _ hii, getEntry_setFace]
        · rw [getEntry_setEntry_oob _ _ _ (by simpa [setFace] using hlen), getEntry_setFace]
      · intro i'
        rcases Nat.lt_or_ge i s.entries.length with hlen | hlen
        · by_cases hii : i = i'
          · subst hii
            rw [getEntry_setEntry_eq _ _ _ (by simpa [setFace] using hlen)]
          · rw [getEntry_setEntry_ne _ _ _ _ hii, getEntry_setFace]
        · rw [getEntry_setEntry_oob _ _ _ (by simpa [setFace] using hlen), getEntry_setFace]
      · intro i'
        rcases Nat.lt_or_ge i s.entries.length with hlen | hlen
        · by_cases hii : i = i'
          · subst hii
            rw [getEntry_setEntry_eq _ _ _ (by simpa [setFace] using hlen)]
            exact List.prefix_append _ _
          · rw [getEntry_setEntry_ne _ _ _ _ hii, getEntry_setFace]
        · rw [getEntry_setEntry_oob _ _ _ (by simpa [setFace] using hlen), getEntry_setFace]
      · intro j' g hg
        have hjn : faceAt s j = none := hfree
        have hne : j ≠ j' := by
          intro e
          rw [e, hg] at hjn
          cases hjn
        rw [faceAt_setEntry, faceAt_setFace_ne _ _ _ _ hne]
        exact hg

theorem addFace_hasFace (s : FibState) (i : Nat) (f : FaceRef)
    (hi : i < s.entries.length) (h : (_fib_entry_add_face s i f).2 = true) :
    hasFace (_fib_entry_add_face s i f).1 i f = true := by
  by_cases h1 : hasFace s i f = true
  · rw [addFace_eq_of_hasFace s i f h1]
    exact h1
  · rcases h2 : findFreeFaceSlot s.faces with _ | j
    · rw [addFace_eq_of_exhausted s i f (Bool.eq_false_iff.mpr h1) h2] at h
      simp at h
    · obtain ⟨hfree, hlt⟩ := findFreeFaceSlot_spec _ _ h2
      rw [addFace_eq_of_free s i f j (Bool.eq_false_iff.mpr h1) h2]
      simp only [hasFace]
      rw [getEntry_setEntry_eq _ _ _ (by simpa [setFace] using hi)]
      simp only [List.any_append, List.any_cons, List.any_nil, Bool.or_eq_true]
      right
      left
      rw [faceAt_setEntry, faceAt_setFace_eq _ _ _ hlt]
      simp

theorem hasFace_mono {s s' : FibState} (hev : Evolves s s') (i : Nat) (f : FaceRef)
    (h : hasFace s i f = true) : hasFace s' i f = true := by
  simp only [hasFace, List.any_eq_true, decide_eq_true_eq] at h ⊢
  obtain ⟨j, hj, hface⟩ := h
  exact ⟨j, (hev.listPre i).subset hj, hev.faceMono j f hface⟩

theorem hasFace_setEntry_ne (s : FibState) (k : Nat) (e : FibEntry) (i : Nat) (f : FaceRef)
    (h : k ≠ i) : hasFace (setEntry s k e) i f = hasFace s i f := by
  simp only [hasFace, getEntry_setEntry_ne _ _ _ _ h, faceAt_setEntry]

/-! ### Step lemmas for the insert scan -/

/-- The state a scan result leaves the pools in. -/
def ScanRes.state : ScanRes → FibState
  | .early s _ => s
  | .done s _ => s

theorem addScan_nil (p : NdnName) (f : FaceRef) (s : FibState) (acc : ScanAcc) :
    addScan p f [] s acc = .ok (.done s acc) := rfl

theorem addScan_cons_free_none (p : NdnName) (f : FaceRef) (i : Nat) (rest : List Nat)
    (s : FibState) (acc : ScanAcc)
    (hp : (getEntry s i).pfx = none) (hff : acc.firstFree = none) :
    addScan p f (i :: rest) s acc = addScan p f rest s { acc with firstFree := some i } := by
  simp only [addScan, hp, hff]

theorem addScan_cons_free_some (p : NdnName) (f : FaceRef) (i : Nat) (rest : List Nat)
    (s : FibState) (acc : ScanAcc) (k : Nat)
    (hp : (getEntry s i).pfx = none) (hff : acc.firstFree = some k) :
    addScan p f (i :: rest) s acc = .error .nullPfxDeref := by
  simp only [addScan, hp, hff]

theorem addScan_cons_exact_ok (p : NdnName) (f : FaceRef) (i : Nat) (rest : List Nat)
    (s s1 : FibState) (acc : ScanAcc) (q : NdnName)
    (hp : (getEntry s i).pfx = some q) (hr : ndn_name_compare_block p q = 0)
    (hatt : _fib_entry_add_face s i f = (s1, true)) :
    addScan p f (i :: rest) s acc =
      addScan p f rest s1 { acc with matchFound := true, releases := acc.releases + 1 } := by
  cases hff : acc.firstFree <;> simp only [addScan, hp, hff, hr, hatt, if_pos]

theorem addScan_cons_exact_fail (p : NdnName) (f : FaceRef) (i : Nat) (rest : List Nat)
    (s s1 : FibState) (acc : ScanAcc) (q : NdnName)
    (hp : (getEntry s i).pfx = some q) (hr : ndn_name_compare_block p q = 0)
    (hatt : _fib_entry_add_face s i f = (s1, false)) :
    addScan p f (i :: rest) s acc = .ok (.early s1 (acc.releases + 1)) := by
  cases hff : acc.firstFree <;> simp only [addScan, hp, hff, hr, hatt, if_pos]

theorem addScan_cons_child_ok (p : NdnName) (f : FaceRef) (i : Nat) (rest : List Nat)
    (s s1 : FibState) (acc : ScanAcc) (q : NdnName)
    (hp : (getEntry s i).pfx = some q) (hr : ndn_name_compare_block p q = -2)
    (hatt : _fib_entry_add_face s i f = (s1, true)) :
    addScan p f (i :: rest) s acc = addScan p f rest s1 acc := by
  have hr0 : ndn_name_compare_block p q ≠ 0 := by rw [hr]; decide
  cases hff : acc.firstFree <;> simp only [addScan, hp, hff, hr, hatt, if_neg hr0, reduceIte] <;>
    norm_num

theorem addScan_cons_child_fail (p : NdnName) (f : FaceRef) (i : Nat) (rest : List Nat)
    (s s1 : FibState) (acc : ScanAcc) (q : NdnName)
    (hp : (getEntry s i).pfx = some q) (hr : ndn_name_compare_block p q = -2)
    (hatt : _fib_entry_add_face s i f = (s1, false)) :
    addScan p f (i :: rest) s acc = .ok (.early s1 acc.releases) := by
  have hr0 : ndn_name_compare_block p q ≠ 0 := by rw [hr]; decide
  cases hff : acc.firstFree <;> simp only [addScan, hp, hff, hr, hatt, if_neg hr0, reduceIte] <;>
    norm_num

theorem addScan_cons_parent_upd (p : NdnName) (f : FaceRef) (i : Nat) (rest : List Nat)
    (s : FibState) (acc : ScanAcc) (q : NdnName)
    (hp : (getEntry s i).pfx = some q) (hr : ndn_name_compare_block p q = 2)
    (hgt : ((getEntry s i).plen : Int) > acc.maxPlen) :
    addScan p f (i :: rest) s acc =
      addScan p f rest s { acc with maxIdx := some i, maxPlen := ((getEntry s i).plen : Int) } := by
  have hr0 : ndn_name_compare_block p q ≠ 0 := by rw [hr]; decide
  have hr2 : ndn_name_compare_block p q ≠ -2 := by rw [hr]; decide
  cases hff : acc.firstFree <;>
    simp only [addScan, hp, hff, hr, if_neg hr0, if_neg hr2, reduceIte, if_pos hgt] <;> norm_num

theorem addScan_cons_parent_keep (p : NdnName) (f : FaceRef) (i : Nat) (rest : List Nat)
    (s : FibState) (acc : ScanAcc) (q : NdnName)
    (hp : (getEntry s i).pfx = some q) (hr : ndn_name_compare_block p q = 2)
    (hgt : ¬ ((getEntry s i).plen : Int) > acc.maxPlen) :
    addScan p f (i :: rest) s acc = addScan p f rest s acc := by
  have hr0 : ndn_name_compare_block p q ≠ 0 := by rw [hr]; decide
  have hr2 : ndn_name_compare_block p q ≠ -2 := by rw [hr]; decide
  cases hff : acc.firstFree <;>
    simp only [addScan, hp, hff, hr, if_neg hr0, if_neg hr2, reduceIte, if_neg hgt] <;> norm_num

theorem addScan_cons_other (p : NdnName) (f : FaceRef) (i : Nat) (rest : List Nat)
    (s : FibState) (acc : ScanAcc) (q : NdnName)
    (hp : (getEntry s i).pfx = some q) (hr0 : ndn_name_compare_block p q ≠ 0)
    (hr2 : ndn_name_compare_block p q ≠ -2) (hr2' : ndn_name_compare_block p q ≠ 2) :
    addScan p f (i :: rest) s acc = addScan p f rest s acc := by
  cases hff : acc.firstFree <;>
    simp only [addScan, hp, hff, if_neg hr0, if_neg hr2, if_neg hr2']

/-! ### Global properties of the insert scan -/

theorem addScan_ok_evolves (p : NdnName) (f : FaceRef) :
    ∀ (idxs : List Nat) (s : FibState) (acc : ScanAcc) (res : ScanRes),
      addScan p f idxs s acc = .ok res → Evolves s res.state := by
  intro idxs
  induction idxs with
  | nil =>
    intro s acc res h
    rw [addScan_nil] at h
    injection h with h
    subst h
    exact evolves_refl s
  | cons i rest ih =>
    intro s acc res h
    rcases hp : (getEntry s i).pfx with _ | q
    · rcases hff : acc.firstFree with _ | k
      · rw [addScan_cons_free_none p f i rest s acc hp hff] at h
        exact ih _ _ _ h
      · rw [addScan_cons_free_some p f i rest s acc k hp hff] at h
        cases h
    · rcases hatt : _fib_entry_add_face s i f with ⟨s1, b⟩
      have hev1 : Evolves s s1 := by
        have he := addFace_evolves s i f
        rw [hatt] at he
        exact he
      by_cases hr0 : ndn_name_compare_block p q = 0
      · cases b with
        | false =>
          rw [addScan_cons_exact_fail p f i rest s s1 acc q hp hr0 hatt] at h
          injection h with h
          subst h
          exact hev1
        | true =>
          rw [addScan_cons_exact_ok p f i rest s s1 acc q hp hr0 hatt] at h
          exact hev1.comp (ih _ _ _ h)
      · by_cases hr2 : ndn_name_compare_block p q = -2
        · cases b with
          | false =>
            rw [addScan_cons_child_fail p f i rest s s1 acc q hp hr2 hatt] at h
            injection h with h
            subst h
            exact hev1
          | true =>
            rw [addScan_cons_child_ok p f i rest s s1 acc q hp hr2 hatt] at h
            exact hev1.comp (ih _ _ _ h)
        · by_cases hr2' : ndn_name_compare_block p q = 2
          · by_cases hgt : ((getEntry s i).plen : Int) > acc.maxPlen
            · rw [addScan_cons_parent_upd p f i rest s acc q hp hr2' hgt] at h
              exact ih _ _ _ h
            · rw [addScan_cons_parent_keep p f i rest s acc q hp hr2' hgt] at h
              exact ih _ _ _ h
          · rw [addScan_cons_other p f i rest s acc q hp hr0 hr2 hr2'] at h
            exact ih _ _ _ h

theorem addScan_matchFound_sticky (p : NdnName) (f : FaceRef) :
    ∀ (idxs : List Nat) (s : FibState) (acc : ScanAcc) (s' : FibState) (acc' : ScanAcc),
      addScan p f idxs s acc = .ok (.done s' acc') → acc.matchFound = true →
      acc'.matchFound = true := by
  intro idxs
  induction idxs with
  | nil =>
    intro s acc s' acc' h hm
    rw [addScan_nil] at h
    injection h with h
    injection h with h1 h2
    subst h2
    exact hm
  | cons i rest ih =>
    intro s acc s' acc' h hm
    rcases hp : (getEntry s i).pfx with _ | q
    · rcases hff : acc.firstFree with _ | k
      · rw [addScan_cons_free_none p f i rest s acc hp hff] at h
        exact ih _ _ _ _ h hm
      · rw [addScan_cons_free_some p f i rest s acc k hp hff] at h
        cases h
    · rcases hatt : _fib_entry_add_face s i f with ⟨s1, b⟩
      by_cases hr0 : ndn_name_compare_block p q = 0
      · cases b with
        | false =>
          rw [addScan_cons_exact_fail p f i rest s s1 acc q hp hr0 hatt] at h
          injection h with h
          cases h
        | true =>
          rw [addScan_cons_exact_ok p f i rest s s1 acc q hp hr0 hatt] at h
          exact ih _ _ _ _ h (by rfl)
      · by_cases hr2 : ndn_name_compare_block p q = -2
        · cases b with
          | false =>
            rw [addScan_cons_child_fail p f i rest s s1 acc q hp hr2 hatt] at h
            injection h with h
            cases h
          | true =>
            rw [addScan_cons_child_ok p f i rest s s1 acc q hp hr2 hatt] at h
            exact ih _ _ _ _ h hm
        · by_cases hr2' : ndn_name_compare_block p q = 2
          · by_cases hgt : ((getEntry s i).plen : Int) > acc.maxPlen
            · rw [addScan_cons_parent_upd p f i rest s acc q hp hr2' hgt] at h
              exact ih _ _ _ _ h hm
            · rw [addScan_cons_parent_keep p f i rest s acc q hp hr2' hgt] at h
              exact ih _ _ _ _ h hm
          · rw [addScan_cons_other p f i rest s acc q hp hr0 hr2 hr2'] at h
            exact ih _ _ _ _ h hm

theorem addScan_firstFree_sticky (p : NdnName) (f : FaceRef) :
    ∀ (idxs : List Nat) (s : FibState) (acc : ScanAcc) (s' : FibState) (acc' : ScanAcc) (k : Nat),
      addScan p f idxs s acc = .ok (.done s' acc') → acc.firstFree = some k →
      acc'.firstFree = some k := by
  intro idxs
  induction idxs with
  | nil =>
    intro s acc s' acc' k h hk
    rw [addScan_nil] at h
    injection h with h
    injection h with h1 h2
    subst h2
    exact hk
  | cons i rest ih =>
    intro s acc s' acc' k h hk
    rcases hp : (getEntry s i).pfx with _ | q
    · rcases hff : acc.firstFree with _ | k0
      · rw [hff] at hk
        cases hk
      · rw [addScan_cons_free_some p f i rest s acc k0 hp hff] at h
        cases h
    · rcases hatt : _fib_entry_add_face s i f with ⟨s1, b⟩
      by_cases hr0 : ndn_name_compare_block p q = 0
      · cases b with
        | false =>
          rw [addScan_cons_exact_fail p f i rest s s1 acc q hp hr0 hatt] at h
          injection h with h
          cases h
        | true =>
          rw [addScan_cons_exact_ok p f i rest s s1 acc q hp hr0 hatt] at h
          exact ih _ _ _ _ _ h hk
      · by_cases hr2 : ndn_name_compare_block p q = -2
        · cases b with
          | false =>
            rw [addScan_cons_child_fail p f i rest s s1 acc q hp hr2 hatt] at h
            injection h with h
            cases h
          | true =>
            rw [addScan_cons_child_ok p f i rest s s1 acc q hp hr2 hatt] at h
            exact ih _ _ _ _ _ h hk
        · by_cases hr2' : ndn_name_compare_block p q = 2
          · by_cases hgt : ((getEntry s i).plen : Int) > acc.maxPlen
            · rw [addScan_cons_parent_upd p f i rest s acc q hp hr2' hgt] at h
              exact ih _ _ _ _ _ h hk
            · rw [addScan_cons_parent_keep p f i rest s acc q hp hr2' hgt] at h
              exact ih _ _ _ _ _ h hk
          · rw [addScan_cons_other p f i rest s acc q hp hr0 hr2 hr2'] at h
            exact ih _ _ _ _ _ h hk

theorem addScan_no_free_of_some (p : NdnName) (f : FaceRef) :
    ∀ (idxs : List Nat) (s : FibState) (acc : ScanAcc) (s' : FibState) (acc' : ScanAcc) (k : Nat),
      addScan p f idxs s acc = .ok (.done s' acc') → acc.firstFree = some k →
      ∀ i ∈ idxs, (getEntry s i).pfx ≠ none := by
  intro idxs
  induction idxs with
  | nil =>
    intro s acc s' acc' k h hk i hmem
    cases hmem
  | cons i0 rest ih =>
    intro s acc s' acc' k h hk i hmem
    rcases hp : (getEntry s i0).pfx with _ | q
    · rw [addScan_cons_free_some p f i0 rest s acc k hp hk] at h
      cases h
    · rcases hatt : _fib_entry_add_face s i0 f with ⟨s1, b⟩
      have hev1 : Evolves s s1 := by
        have he := addFace_evolves s i0 f
        rw [hatt] at he
        exact he
      rcases List.mem_cons.mp hmem with rfl | hmem'
      · rw [hp]
        simp
      · by_cases hr0 : ndn_name_compare_block p q = 0
        · cases b with
          | false =>
            rw [addScan_cons_exact_fail p f i0 rest s s1 acc q hp hr0 hatt] at h
            injection h with h
            cases h
          | true =>
            rw [addScan_cons_exact_ok p f i0 rest s s1 acc q hp hr0 hatt] at h
            have := ih _ _ _ _ k h hk i hmem'
            rw [hev1.pfxEq i] at this
            exact this
        · by_cases hr2 : ndn_name_compare_block p q = -2
          · cases b with
            | false =>
              rw [addScan_cons_child_fail p f i0 rest s s1 acc q hp hr2 hatt] at h
              injection h with h
              cases h
            | true =>
              rw [addScan_cons_child_ok p f i0 rest s s1 acc q hp hr2 hatt] at h
              have := ih _ _ _ _ k h hk i hmem'
              rw [hev1.pfxEq i] at this
              exact this
          · by_cases hr2' : ndn_name_compare_block p q = 2
            · by_cases hgt : ((getEntry s i0).plen : Int) > acc.maxPlen
              · rw [addScan_cons_parent_upd p f i0 rest s acc q hp hr2' hgt] at h
                exact ih _ _ _ _ k h (by simpa using hk) i hmem'
              · rw [addScan_cons_parent_keep p f i0 rest s acc q hp hr2' hgt] at h
                exact ih _ _ _ _ k h hk i hmem'
            · rw [addScan_cons_other p f i0 rest s acc q hp hr0 hr2 hr2'] at h
              exact ih _ _ _ _ k h hk i hmem'

theorem addScan_free_unique (p : NdnName) (f : FaceRef) :
    ∀ (idxs : List Nat) (s : FibState) (acc : ScanAcc) (s' : FibState) (acc' : ScanAcc),
      addScan p f idxs s acc = .ok (.done s' acc') → acc.firstFree = none →
      ∀ i ∈ idxs, (getEntry s i).pfx = none → acc'.firstFree = some i := by
  intro idxs
  induction idxs with
  | nil =>
    intro s acc s' acc' h hff i hmem
    cases hmem
  | cons i0 rest ih =>
    intro s acc s' acc' h hff i hmem hpi
    rcases hp : (getEntry s i0).pfx with _ | q
    · rw [addScan_cons_free_none p f i0 rest s acc hp hff] at h
      rcases List.mem_cons.mp hmem with rfl | hmem'
      · exact addScan_firstFree_sticky p f rest s _ s' acc' i h (by rfl)
      · exact absurd hpi (addScan_no_free_of_some p f rest s _ s' acc' i0 h (by rfl) i hmem')
    · rcases hatt : _fib_entry_add_face s i0 f with ⟨s1, b⟩
      have hev1 : Evolves s s1 := by
        have he := addFace_evolves s i0 f
        rw [hatt] at he
        exact he
      rcases List.mem_cons.mp hmem with rfl | hmem'
      · rw [hp] at hpi
        cases hpi
      · by_cases hr0 : ndn_name_compare_block p q = 0
        · cases b with
          | false =>
            rw [addScan_cons_exact_fail p f i0 rest s s1 acc q hp hr0 hatt] at h
            injection h with h
            cases h
          | true =>
            rw [addScan_cons_exact_ok p f i0 rest s s1 acc q hp hr0 hatt] at h
            exact ih _ _ _ _ h hff i hmem' (by rw [hev1.pfxEq i]; exact hpi)
        · by_cases hr2 : ndn_name_compare_block p q = -2
          · cases b with
            | false =>
              rw [addScan_cons_child_fail p f i0 rest s s1 acc q hp hr2 hatt] at h
              injection h with h
              cases h
            | true =>
              rw [addScan_cons_child_ok p f i0 rest s s1 acc q hp hr2 hatt] at h
              exact ih _ _ _ _ h hff i hmem' (by rw [hev1.pfxEq i]; exact hpi)
          · by_cases hr2' : ndn_name_compare_block p q = 2
            · by_cases hgt : ((getEntry s i0).plen : Int) > acc.maxPlen
              · rw [addScan_cons_parent_upd p f i0 rest s acc q hp hr2' hgt] at h
                exact ih _ _ _ _ h (by simpa using hff) i hmem' hpi
              · rw [addScan_cons_parent_keep p f i0 rest s acc q hp hr2' hgt] at h
                exact ih _ _ _ _ h hff i hmem' hpi
            · rw [addScan_cons_other p f i0 rest s acc q hp hr0 hr2 hr2'] at h
              exact ih _ _ _ _ h hff i hmem' hpi

theorem addScan_firstFree_origin (p : NdnName) (f : FaceRef) :
    ∀ (idxs : List Nat) (s : FibState) (acc : ScanAcc) (s' : FibState) (acc' : ScanAcc) (k : Nat),
      addScan p f idxs s acc = .ok (.done s' acc') → acc'.firstFree = some k →
      acc.firstFree = some k ∨ (k ∈ idxs ∧ (getEntry s k).pfx = none) := by
  intro idxs
  induction idxs with
  | nil =>
    intro s acc s' acc' k h hk
    rw [addScan_nil] at h
    injection h with h
    injection h with h1 h2
    subst h2
    exact Or.inl hk
  | cons i0 rest ih =>
    intro s acc s' acc' k h hk
    rcases hp : (getEntry s i0).pfx with _ | q
    · rcases hff : acc.firstFree with _ | k0
      · rw [addScan_cons_free_none p f i0 rest s acc hp hff] at h
        rcases ih _ _ _ _ k h hk with h1 | h1
        · have : i0 = k := by
            have h2 : some i0 = some k := h1
            injection h2
          subst this
          exact Or.inr ⟨List.mem_cons_self _ _, hp⟩
        · exact Or.inr ⟨List.mem_cons_of_mem _ h1.1, h1.2⟩
      · rw [addScan_cons_free_some p f i0 rest s acc k0 hp hff] at h
        cases h
    · rcases hatt : _fib_entry_add_face s i0 f with ⟨s1, b⟩
      have hev1 : Evolves s s1 := by
        have he := addFace_evolves s i0 f
        rw [hatt] at he
        exact he
      by_cases hr0 : ndn_name_compare_block p q = 0
      · cases b with
        | false =>
          rw [addScan_cons_exact_fail p f i0 rest s s1 acc q hp hr0 hatt] at h
          injection h with h
          cases h
        | true =>
          rw [addScan_cons_exact_ok p f i0 rest s s1 acc q hp hr0 hatt] at h
          rcases ih _ _ _ _ k h hk with h1 | h1
          · exact Or.inl h1
          · exact Or.inr ⟨List.mem_cons_of_mem _ h1.1, by rw [← hev1.pfxEq k]; exact h1.2⟩
      · by_cases hr2 : ndn_name_compare_block p q = -2
        · cases b with
          | false =>
            rw [addScan_cons_child_fail p f i0 rest s s1 acc q hp hr2 hatt] at h
            injection h with h
            cases h
          | true =>
            rw [addScan_cons_child_ok p f i0 rest s s1 acc q hp hr2 hatt] at h
            rcases ih _ _ _ _ k h hk with h1 | h1
            · exact Or.inl h1
            · exact Or.inr ⟨List.mem_cons_of_mem _ h1.1, by rw [← hev1.pfxEq k]; exact h1.2⟩
        · by_cases hr2' : ndn_name_compare_block p q = 2
          · by_cases hgt : ((getEntry s i0).plen : Int) > acc.maxPlen
            · rw [addScan_cons_parent_upd p f i0 rest s acc q hp hr2' hgt] at h
              rcases ih _ _ _ _ k h hk with h1 | h1
              · exact Or.inl h1
              · exact Or.inr ⟨List.mem_cons_of_mem _ h1.1, h1.2⟩
            · rw [addScan_cons_parent_keep p f i0 rest s acc q hp hr2' hgt] at h
              rcases ih _ _ _ _ k h hk with h1 | h1
              · exact Or.inl h1
              · exact Or.inr ⟨List.mem_cons_of_mem _ h1.1, h1.2⟩
          · rw [addScan_cons_other p f i0 rest s acc q hp hr0 hr2 hr2'] at h
            rcases ih _ _ _ _ k h hk with h1 | h1
            · exact Or.inl h1
            · exact Or.inr ⟨List.mem_cons_of_mem _ h1.1, h1.2⟩

theorem addScan_no_exact (p : NdnName) (f : FaceRef) :
    ∀ (idxs : List Nat) (s : FibState) (acc : ScanAcc) (s' : FibState) (acc' : ScanAcc),
      addScan p f idxs s acc = .ok (.done s' acc') → acc'.matchFound = false →
      ∀ i ∈ idxs, ∀ q, (getEntry s i).pfx = some q → ndn_name_compare_block p q ≠ 0 := by
  intro idxs
  induction idxs with
  | nil =>
    intro s acc s' acc' h hm i hmem
    cases hmem
  | cons i0 rest ih =>
    intro s acc s' acc' h hm i hmem q hq
    rcases hp : (getEntry s i0).pfx with _ | q0
    · rcases hff : acc.firstFree with _ | k
      · rw [addScan_cons_free_none p f i0 rest s acc hp hff] at h
        rcases List.mem_cons.mp hmem with rfl | hmem'
        · rw [hp] at hq
          cases hq
        · exact ih _ _ _ _ h hm i hmem' q hq
      · rw [addScan_cons_free_some p f i0 rest s acc k hp hff] at h
        cases h
    · rcases hatt : _fib_entry_add_face s i0 f with ⟨s1, b⟩
      have hev1 : Evolves s s1 := by
        have he := addFace_evolves s i0 f
        rw [hatt] at he
        exact he
      by_cases hr0 : ndn_name_compare_block p q0 = 0
      · cases b with
        | false =>
          rw [addScan_cons_exact_fail p f i0 rest s s1 acc q0 hp hr0 hatt] at h
          injection h with h
          cases h
        | true =>
          rw [addScan_cons_exact_ok p f i0 rest s s1 acc q0 hp hr0 hatt] at h
          have := addScan_matchFound_sticky p f rest s1 _ s' acc' h (by rfl)
          rw [hm] at this
          cases this
      · by_cases hr2 : ndn_name_compare_block p q0 = -2
        · cases b with
          | false =>
            rw [addScan_cons_child_fail p f i0 rest s s1 acc q0 hp hr2 hatt] at h
            injection h with h
            cases h
          | true =>
            rw [addScan_cons_child_ok p f i0 rest s s1 acc q0 hp hr2 hatt] at h
            rcases List.mem_cons.mp hmem with rfl | hmem'
            · rw [hp] at hq
              injection hq with hq
              subst hq
              exact hr0
            · exact ih _ _ _ _ h hm i hmem' q (by rw [hev1.pfxEq i]; exact hq)
        · by_cases hr2' : ndn_name_compare_block p q0 = 2
          · rcases List.mem_cons.mp hmem with rfl | hmem'
            · rw [hp] at hq
              injection hq with hq
              subst hq
              exact hr0
            · by_cases hgt : ((getEntry s i0).plen : Int) > acc.maxPlen
              · rw [addScan_cons_parent_upd p f i0 rest s acc q0 hp hr2' hgt] at h
                exact ih _ _ _ _ h hm i hmem' q hq
              · rw [addScan_cons_parent_keep p f i0 rest s acc q0 hp hr2' hgt] at h
                exact ih _ _ _ _ h hm i hmem' q hq
          · rcases List.mem_cons.mp hmem with rfl | hmem'
            · rw [hp] at hq
              injection hq with hq
              subst hq
              exact hr0
            · rw [addScan_cons_other p f i0 rest s acc q0 hp hr0 hr2 hr2'] at h
              exact ih _ _ _ _ h hm i hmem' q hq

theorem addScan_exact_of_matchFound (p : NdnName) (f : FaceRef) :
    ∀ (idxs : List Nat) (s : FibState) (acc : ScanAcc) (s' : FibState) (acc' : ScanAcc),
      addScan p f idxs s acc = .ok (.done s' acc') → acc.matchFound = false →
      acc'.matchFound = true →
      ∃ i ∈ idxs, (getEntry s i).pfx = some p := by
  intro idxs
  induction idxs with
  | nil =>
    intro s acc s' acc' h hm0 hm1
    rw [addScan_nil] at h
    injection h with h
    injection h with h1 h2
    subst h2
    rw [hm0] at hm1
    cases hm1
  | cons i0 rest ih =>
    intro s acc s' acc' h hm0 hm1
    rcases hp : (getEntry s i0).pfx with _ | q
    · rcases hff : acc.firstFree with _ | k
      · rw [addScan_cons_free_none p f i0 rest s acc hp hff] at h
        obtain ⟨i, hmem, hpi⟩ := ih _ _ _ _ h hm0 hm1
        exact ⟨i, List.mem_cons_of_mem _ hmem, hpi⟩
      · rw [addScan_cons_free_some p f i0 rest s acc k hp hff] at h
        cases h
    · rcases hatt : _fib_entry_add_face s i0 f with ⟨s1, b⟩
      have hev1 : Evolves s s1 := by
        have he := addFace_evolves s i0 f
        rw [hatt] at he
        exact he
      by_cases hr0 : ndn_name_compare_block p q = 0
      · have hq : q = p := ((cmpBlock_eq_zero_iff p q).mp hr0).symm
        subst hq
        exact ⟨i0, List.mem_cons_self _ _, hp⟩
      · by_cases hr2 : ndn_name_compare_block p q = -2
        · cases b with
          | false =>
            rw [addScan_cons_child_fail p f i0 rest s s1 acc q hp hr2 hatt] at h
            injection h with h
            cases h
          | true =>
            rw [addScan_cons_child_ok p f i0 rest s s1 acc q hp hr2 hatt] at h
            obtain ⟨i, hmem, hpi⟩ := ih _ _ _ _ h hm0 hm1
            exact ⟨i, List.mem_cons_of_mem _ hmem, by rw [← hev1.pfxEq i]; exact hpi⟩
        · by_cases hr2' : ndn_name_compare_block p q = 2
          · by_cases hgt : ((getEntry s i0).plen : Int) > acc.maxPlen
            · rw [addScan_cons_parent_upd p f i0 rest s acc q hp hr2' hgt] at h
              obtain ⟨i, hmem, hpi⟩ := ih _ _ _ _ h hm0 hm1
              exact ⟨i, List.mem_cons_of_mem _ hmem, hpi⟩
            · rw [addScan_cons_parent_keep p f i0 rest s acc q hp hr2' hgt] at h
              obtain ⟨i, hmem, hpi⟩ := ih _ _ _ _ h hm0 hm1
              exact ⟨i, List.mem_cons_of_mem _ hmem, hpi⟩
          · rw [addScan_cons_other p f i0 rest s acc q hp hr0 hr2 hr2'] at h
            obtain ⟨i, hmem, hpi⟩ := ih _ _ _ _ h hm0 hm1
            exact ⟨i, List.mem_cons_of_mem _ hmem, hpi⟩

theorem addScan_done_hasFace (p : NdnName) (f : FaceRef) :
    ∀ (idxs : List Nat) (s : FibState) (acc : ScanAcc) (s' : FibState) (acc' : ScanAcc),
      addScan p f idxs s acc = .ok (.done s' acc') →
      ∀ i ∈ idxs, i < s.entries.length →
      ∀ q, (getEntry s i).pfx = some q →
      (ndn_name_compare_block p q = 0 ∨ ndn_name_compare_block p q = -2) →
      hasFace s' i f = true := by
  intro idxs
  induction idxs with
  | nil =>
    intro s acc s' acc' h i hmem
    cases hmem
  | cons i0 rest ih =>
    intro s acc s' acc' h i hmem hilt q hq hcmp
    rcases hp : (getEntry s i0).pfx with _ | q0
    · rcases hff : acc.firstFree with _ | k
      · rw [addScan_cons_free_none p f i0 rest s acc hp hff] at h
        rcases List.mem_cons.mp hmem with rfl | hmem'
        · rw [hp] at hq
          cases hq
        · exact ih _ _ _ _ h i hmem' hilt q hq hcmp
      · rw [addScan_cons_free_some p f i0 rest s acc k hp hff] at h
        cases h
    · rcases hatt : _fib_entry_add_face s i0 f with ⟨s1, b⟩
      have hev1 : Evolves s s1 := by
        have he := addFace_evolves s i0 f
        rw [hatt] at he
        exact he
      have hstep : ∀ (acc1 : ScanAcc), addScan p f rest s1 acc1 = .ok (.done s' acc') →
          (b = true) → i = i0 → hasFace s' i f = true := by
        intro acc1 hrest hb hii
        subst hii
        have hface1 : hasFace s1 i f = true := by
          have hf := addFace_hasFace s i f hilt
          rw [hatt] at hf
          exact hf hb
        exact hasFace_mono (addScan_ok_evolves p f rest s1 acc1 _ hrest) i f hface1
      by_cases hr0 : ndn_name_compare_block p q0 = 0
      · cases b with
        | false =>
          rw [addScan_cons_exact_fail p f i0 rest s s1 acc q0 hp hr0 hatt] at h
          injection h with h
          cases h
        | true =>
          rw [addScan_cons_exact_ok p f i0 rest s s1 acc q0 hp hr0 hatt] at h
          rcases List.mem_cons.mp hmem with rfl | hmem'
          · exact hstep _ h rfl rfl
          · exact ih _ _ _ _ h i hmem' (by rw [hev1.entLen]; exact hilt) q
              (by rw [hev1.pfxEq i]; exact hq) hcmp
      · by_cases hr2 : ndn_name_compare_block p q0 = -2
        · cases b with
          | false =>
            rw [addScan_cons_child_fail p f i0 rest s s1 acc q0 hp hr2 hatt] at h
            injection h with h
            cases h
          | true =>
            rw [addScan_cons_child_ok p f i0 rest s s1 acc q0 hp hr2 hatt] at h
            rcases List.mem_cons.mp hmem with rfl | hmem'
            · exact hstep _ h rfl rfl
            · exact ih _ _ _ _ h i hmem' (by rw [hev1.entLen]; exact hilt) q
                (by rw [hev1.pfxEq i]; exact hq) hcmp
        · by_cases hr2' : ndn_name_compare_block p q0 = 2
          · rcases List.mem_cons.mp hmem with rfl | hmem'
            · rw [hp] at hq
              injection hq with hq
              subst hq
              rcases hcmp with hc | hc
              · exact absurd hc hr0
              · exact absurd hc hr2
            · by_cases hgt : ((getEntry s i0).plen : Int) > acc.maxPlen
              · rw [addScan_cons_parent_upd p f i0 rest s acc q0 hp hr2' hgt] at h
                exact ih _ _ _ _ h i hmem' hilt q hq hcmp
              · rw [addScan_cons_parent_keep p f i0 rest s acc q0 hp hr2' hgt] at h
                exact ih _ _ _ _ h i hmem' hilt q hq hcmp
          · rcases List.mem_cons.mp hmem with rfl | hmem'
            · rw [hp] at hq
              injection hq with hq
              subst hq
              rcases hcmp with hc | hc
              · exact absurd hc hr0
              · exact absurd hc hr2
            · rw [addScan_cons_other p f i0 rest s acc q0 hp hr0 hr2 hr2'] at h
              exact ih _ _ _ _ h i hmem' hilt q hq hcmp

/-- Number of free entry slots among the scanned indices. -/
def freeCount (s : FibState) (idxs : List Nat) : Nat :=
  (idxs.filter (fun i => (getEntry s i).pfx.isNone)).length

/-- A scan over a table that already contains the face everywhere an
attach would happen, with at most one free slot still unclaimed, is a
pure no-op: it completes with the state unchanged, and finds a match
exactly when some scanned slot holds `p`. -/
theorem addScan_noop (p : NdnName) (f : FaceRef) :
    ∀ (idxs : List Nat) (s : FibState) (acc : ScanAcc),
      (∀ i ∈ idxs, ∀ q, (getEntry s i).pfx = some q →
        (ndn_name_compare_block p q = 0 ∨ ndn_name_compare_block p q = -2) →
        hasFace s i f = true) →
      ((acc.firstFree = none ∧ freeCount s idxs ≤ 1) ∨ freeCount s idxs = 0) →
      ∃ acc', addScan p f idxs s acc = .ok (.done s acc') ∧
        acc'.matchFound = (acc.matchFound ||
          idxs.any (fun i => decide ((getEntry s i).pfx = some p))) := by
  intro idxs
  induction idxs with
  | nil =>
    intro s acc _ _
    exact ⟨acc, addScan_nil p f s acc, by simp⟩
  | cons i0 rest ih =>
    intro s acc hhas hfree
    have hhas' : ∀ i ∈ rest, ∀ q, (getEntry s i).pfx = some q →
        (ndn_name_compare_block p q = 0 ∨ ndn_name_compare_block p q = -2) →
        hasFace s i f = true :=
      fun i hmem q hq hcmp => hhas i (List.mem_cons_of_mem _ hmem) q hq hcmp
    rcases hp : (getEntry s i0).pfx with _ | q0
    · have hcnt : freeCount s (i0 :: rest) = freeCount s rest + 1 := by
        simp [freeCount, List.filter_cons, hp]
      have hff : acc.firstFree = none ∧ freeCount s (i0 :: rest) ≤ 1 := by
        rcases hfree with h1 | h1
        · exact h1
        · rw [hcnt] at h1
          cases h1
      have hrest0 : freeCount s rest = 0 := by
        have := hff.2
        omega
      rw [addScan_cons_free_none p f i0 rest s acc hp hff.1]
      obtain ⟨acc', hscan, hmf⟩ :=
        ih s { acc with firstFree := some i0 } hhas' (Or.inr hrest0)
      refine ⟨acc', hscan, ?_⟩
      rw [hmf]
      simp [hp]
    · have hcnt : freeCount s (i0 :: rest) = freeCount s rest := by
        simp [freeCount, List.filter_cons, hp]
      have hfree'' : ∀ (acc1 : ScanAcc), acc1.firstFree = acc.firstFree →
          ((acc1.firstFree = none ∧ freeCount s rest ≤ 1) ∨ freeCount s rest = 0) := by
        intro acc1 hff1
        rcases hfree with h1 | h1
        · rw [hcnt] at h1
          exact Or.inl ⟨by rw [hff1]; exact h1.1, h1.2⟩
        · rw [hcnt] at h1
          exact Or.inr h1
      by_cases hr0 : ndn_name_compare_block p q0 = 0
      · have hq0 : q0 = p := ((cmpBlock_eq_zero_iff p q0).mp hr0).symm
        have hhf : hasFace s i0 f = true :=
          hhas i0 (List.mem_cons_self _ _) q0 hp (Or.inl hr0)
        rw [addScan_cons_exact_ok p f i0 rest s s acc q0 hp hr0
          (addFace_eq_of_hasFace s i0 f hhf)]
        obtain ⟨acc', hscan, hmf⟩ :=
          ih s { acc with matchFound := true, releases := acc.releases + 1 }
            hhas' (hfree'' _ rfl)
        refine ⟨acc', hscan, ?_⟩
        rw [hmf]
        simp [hp, hq0]
      · by_cases hr2 : ndn_name_compare_block p q0 = -2
        · have hhf : hasFace s i0 f = true :=
            hhas i0 (List.mem_cons_self _ _) q0 hp (Or.inr hr2)
          rw [addScan_cons_child_ok p f i0 rest s s acc q0 hp hr2
            (addFace_eq_of_hasFace s i0 f hhf)]
          obtain ⟨acc', hscan, hmf⟩ := ih s acc hhas' (hfree'' _ rfl)
          refine ⟨acc', hscan, ?_⟩
          have hq0 : q0 ≠ p := by
            intro e
            subst e
            rw [cmpBlock_self] at hr2
            cases hr2
          rw [hmf]
          simp [hp, hq0]
        · have hq0 : q0 ≠ p := by
            intro e
            subst e
            rw [cmpBlock_self] at hr0
            exact hr0 rfl
          by_cases hr2' : ndn_name_compare_block p q0 = 2
          · by_cases hgt : ((getEntry s i0).plen : Int) > acc.maxPlen
            · rw [addScan_cons_parent_upd p f i0 rest s acc q0 hp hr2' hgt]
              obtain ⟨acc', hscan, hmf⟩ :=
                ih s { acc with maxIdx := some i0, maxPlen := ((getEntry s i0).plen : Int) }
                  hhas' (hfree'' _ rfl)
              refine ⟨acc', hscan, ?_⟩
              rw [hmf]
              simp [hp, hq0]
            · rw [addScan_cons_parent_keep p f i0 rest s acc q0 hp hr2' hgt]
              obtain ⟨acc', hscan, hmf⟩ := ih s acc hhas' (hfree'' _ rfl)
              refine ⟨acc', hscan, ?_⟩
              rw [hmf]
              simp [hp, hq0]
          · rw [addScan_cons_other p f i0 rest s acc q0 hp hr0 hr2 hr2']
            obtain ⟨acc', hscan, hmf⟩ := ih s acc hhas' (hfree'' _ rfl)
            refine ⟨acc', hscan, ?_⟩
            rw [hmf]
            simp [hp, hq0]

/-! ### Lemmas about the inherit loop, entry removal and free-slot counts -/

theorem inheritFaces_evolves (k : Nat) :
    ∀ (js : List Nat) (s : FibState), Evolves s (inheritFaces k js s).1
  | [], s => evolves_refl s
  | j :: rest, s => by
    rcases hatt : _fib_entry_add_face s k (FaceRef.slot j) with ⟨s1, b⟩
    have hev1 : Evolves s s1 := by
      have he := addFace_evolves s k (FaceRef.slot j)
      rw [hatt] at he
      exact he
    cases b with
    | false => simpa [inheritFaces, hatt] using hev1
    | true =>
      have := inheritFaces_evolves k rest s1
      simpa [inheritFaces, hatt] using hev1.comp this

theorem foldl_clearFaces_entries :
    ∀ (js : List Nat) (s : FibState),
      (js.foldl (fun t j => setFace t j none) s).entries = s.entries
  | [], _ => rfl
  | j :: rest, s => by
    simpa [List.foldl_cons] using foldl_clearFaces_entries rest (setFace s j none)

theorem removeCore_entries_length (s : FibState) (i : Nat) :
    (fibRemoveEntryCore s i).entries.length = s.entries.length := by
  simp [fibRemoveEntryCore, setEntry, foldl_clearFaces_entries]

theorem removeCore_pfx_self (s : FibState) (i : Nat) :
    (getEntry (fibRemoveEntryCore s i) i).pfx = none := by
  unfold fibRemoveEntryCore
  rcases Nat.lt_or_ge i s.entries.length with hlt | hge
  · rw [getEntry_setEntry_eq _ _ _ (by
      rw [show (((getEntry s i).fib_faces).foldl (fun t j => setFace t j none) s).entries =
        s.entries from foldl_clearFaces_entries _ s]
      exact hlt)]
    rfl
  · rw [getEntry_setEntry_oob _ _ _ (by
      rw [show (((getEntry s i).fib_faces).foldl (fun t j => setFace t j none) s).entries =
        s.entries from foldl_clearFaces_entries _ s]
      exact hge)]
    unfold getEntry
    rw [foldl_clearFaces_entries]
    have : s.entries.getD i FibEntry.freeSlot = FibEntry.freeSlot :=
      List.getD_eq_default _ _ (by omega)
    rw [this]
    rfl

theorem removeCore_pfx_ne (s : FibState) (i i' : Nat) (h : i ≠ i') :
    (getEntry (fibRemoveEntryCore s i) i').pfx = (getEntry s i').pfx := by
  unfold fibRemoveEntryCore
  rw [getEntry_setEntry_ne _ _ _ _ h]
  unfold getEntry
  rw [foldl_clearFaces_entries]

theorem freeCount_congr {s s' : FibState} (idxs : List Nat)
    (h : ∀ i ∈ idxs, (getEntry s' i).pfx = (getEntry s i).pfx) :
    freeCount s' idxs = freeCount s idxs := by
  unfold freeCount
  rw [List.filter_congr (fun i hi => by rw [h i hi])]

theorem freeCount_eq_zero (s : FibState) (idxs : List Nat)
    (h : ∀ i ∈ idxs, (getEntry s i).pfx ≠ none) : freeCount s idxs = 0 := by
  unfold freeCount
  rw [List.filter_eq_nil_iff.mpr (fun i hi => by
    simp only [Option.isNone_iff_eq_none, decide_eq_true_eq]
    exact h i hi)]
  rfl

theorem freeCount_le_one (s : FibState) (idxs : List Nat) (hnd : idxs.Nodup) (k : Nat)
    (h : ∀ i ∈ idxs, (getEntry s i).pfx = none → i = k) : freeCount s idxs ≤ 1 := by
  unfold freeCount
  have hall : ∀ a ∈ idxs.filter (fun i => (getEntry s i).pfx.isNone), a = k := by
    intro a ha
    obtain ⟨hmem, hpred⟩ := List.mem_filter.mp ha
    exact h a hmem (Option.isNone_iff_eq_none.mp hpred)
  have hndf : (idxs.filter (fun i => (getEntry s i).pfx.isNone)).Nodup := hnd.filter _
  rcases hl : idxs.filter (fun i => (getEntry s i).pfx.isNone) with _ | ⟨a, rest⟩
  · simp
  · rcases rest with _ | ⟨b, rest'⟩
    · simp
    · exfalso
      rw [hl] at hall hndf
      have ha : a = k := hall a (by simp)
      have hb : b = k := hall b (by simp)
      subst ha
      subst hb
      simp at hndf

/-! ### Path equations for `ndn_fib_add` -/

theorem add_eq_scan_error (s : FibState) (p : NdnName) (f : FaceRef) (e : Err)
    (hscan : addScan p f (List.range s.entries.length) s ⟨none, none, -1, false, 0⟩ = .error e) :
    ndn_fib_add s p f = .error e := by
  unfold ndn_fib_add
  rw [hscan]

theorem add_eq_early (s : FibState) (p : NdnName) (f : FaceRef) (s' : FibState) (rel : Nat)
    (hscan : addScan p f (List.range s.entries.length) s ⟨none, none, -1, false, 0⟩ =
      .ok (.early s' rel)) :
    ndn_fib_add s p f = .ok ⟨-1, s', rel, false⟩ := by
  unfold ndn_fib_add
  rw [hscan]

theorem add_eq_match (s : FibState) (p : NdnName) (f : FaceRef) (s' : FibState) (acc : ScanAcc)
    (hscan : addScan p f (List.range s.entries.length) s ⟨none, none, -1, false, 0⟩ =
      .ok (.done s' acc))
    (hmf : acc.matchFound = true) :
    ndn_fib_add s p f = .ok ⟨0, s', acc.releases, false⟩ := by
  unfold ndn_fib_add
  rw [hscan]
  simp [hmf]

theorem add_eq_nofree (s : FibState) (p : NdnName) (f : FaceRef) (s' : FibState) (acc : ScanAcc)
    (hscan : addScan p f (List.range s.entries.length) s ⟨none, none, -1, false, 0⟩ =
      .ok (.done s' acc))
    (hmf : acc.matchFound = false) (hff : acc.firstFree = none) :
    ndn_fib_add s p f = .ok ⟨-1, s', acc.releases, false⟩ := by
  unfold ndn_fib_add
  rw [hscan]
  simp [hmf, hff]

theorem add_eq_new_attach_fail (s : FibState) (p : NdnName) (f : FaceRef) (s' s2 : FibState)
    (acc : ScanAcc) (k : Nat)
    (hscan : addScan p f (List.range s.entries.length) s ⟨none, none, -1, false, 0⟩ =
      .ok (.done s' acc))
    (hmf : acc.matchFound = false) (hff : acc.firstFree = some k)
    (hatt : _fib_entry_add_face
      (setEntry s' k ⟨some p, ndn_name_get_size_from_block p, []⟩) k f = (s2, false)) :
    ndn_fib_add s p f = .ok ⟨-1, setEntry s2 k FibEntry.freeSlot, acc.releases + 1, false⟩ := by
  unfold ndn_fib_add
  rw [hscan]
  simp [hmf, hff, hatt]

theorem add_eq_new_nomax (s : FibState) (p : NdnName) (f : FaceRef) (s' s2 : FibState)
    (acc : ScanAcc) (k : Nat)
    (hscan : addScan p f (List.range s.entries.length) s ⟨none, none, -1, false, 0⟩ =
      .ok (.done s' acc))
    (hmf : acc.matchFound = false) (hff : acc.firstFree = some k)
    (hatt : _fib_entry_add_face
      (setEntry s' k ⟨some p, ndn_name_get_size_from_block p, []⟩) k f = (s2, true))
    (hmax : acc.maxIdx = none) :
    ndn_fib_add s p f = .ok ⟨0, s2, acc.releases, true⟩ := by
  unfold ndn_fib_add
  rw [hscan]
  simp [hmf, hff, hatt, hmax]

theorem add_eq_new_inherit_ok (s : FibState) (p : NdnName) (f : FaceRef) (s' s2 s3 : FibState)
    (acc : ScanAcc) (k m : Nat)
    (hscan : addScan p f (List.range s.entries.length) s ⟨none, none, -1, false, 0⟩ =
      .ok (.done s' acc))
    (hmf : acc.matchFound = false) (hff : acc.firstFree = some k)
    (hatt : _fib_entry_add_face
      (setEntry s' k ⟨some p, ndn_name_get_size_from_block p, []⟩) k f = (s2, true))
    (hmax : acc.maxIdx = some m)
    (hinh : inheritFaces k (getEntry s2 m).fib_faces s2 = (s3, true)) :
    ndn_fib_add s p f = .ok ⟨0, s3, acc.releases, true⟩ := by
  unfold ndn_fib_add
  rw [hscan]
  simp [hmf, hff, hatt, hmax, hinh]

theorem add_eq_new_inherit_fail (s : FibState) (p : NdnName) (f : FaceRef) (s' s2 s3 : FibState)
    (acc : ScanAcc) (k m : Nat)
    (hscan : addScan p f (List.range s.entries.length) s ⟨none, none, -1, false, 0⟩ =
      .ok (.done s' acc))
    (hmf : acc.matchFound = false) (hff : acc.firstFree = some k)
    (hatt : _fib_entry_add_face
      (setEntry s' k ⟨some p, ndn_name_get_size_from_block p, []⟩) k f = (s2, true))
    (hmax : acc.maxIdx = some m)
    (hinh : inheritFaces k (getEntry s2 m).fib_faces s2 = (s3, false)) :
    ndn_fib_add s p f = .ok ⟨-1, fibRemoveEntryCore s3 k, acc.releases + 1, false⟩ := by
  unfold ndn_fib_add
  rw [hscan]
  simp [hmf, hff, hatt, hmax, hinh]

/-- Master characterization of a non-crashing `ndn_fib_add` call:
lengths are preserved; the return code is `0` or `-1`; a failing call
leaves every entry's prefix unchanged; a successful call leaves the face
attached to every occupied entry whose prefix equals or is properly
extended by the argument prefix, leaves an entry holding the argument
prefix, leaves at most one free entry slot, and changes the prefix table
either not at all or by filling exactly one previously free slot with a
prefix no occupied entry held. -/
theorem add_ok_spec (s : FibState) (p : NdnName) (f : FaceRef) (out : AddOutcome)
    (h : ndn_fib_add s p f = .ok out) :
    out.state.entries.length = s.entries.length ∧
    (out.ret = 0 ∨ out.ret = -1) ∧
    (out.ret = -1 → ∀ i, (getEntry out.state i).pfx = (getEntry s i).pfx) ∧
    (out.ret = 0 →
      (∀ i < out.state.entries.length, ∀ q, (getEntry out.state i).pfx = some q →
        (ndn_name_compare_block p q = 0 ∨ ndn_name_compare_block p q = -2) →
        hasFace out.state i f = true) ∧
      (∃ i < out.state.entries.length, (getEntry out.state i).pfx = some p) ∧
      freeCount out.state (List.range out.state.entries.length) ≤ 1 ∧
      ((∀ i, (getEntry out.state i).pfx = (getEntry s i).pfx) ∨
       (∃ k < s.entries.length, (getEntry s k).pfx = none ∧
         (getEntry out.state k).pfx = some p ∧
         (∀ i, i ≠ k → (getEntry out.state i).pfx = (getEntry s i).pfx) ∧
         (∀ i < s.entries.length, ∀ q, (getEntry s i).pfx = some q → q ≠ p)))) := by
  cases hscan : addScan p f (List.range s.entries.length) s ⟨none, none, -1, false, 0⟩ with
  | error e =>
    rw [add_eq_scan_error s p f e hscan] at h
    cases h
  | ok res =>
    cases res with
    | early s' rel =>
      have hout := (add_eq_early s p f s' rel hscan).symm.trans h
      injection hout with hout
      subst hout
      have hev : Evolves s s' := addScan_ok_evolves p f _ s _ _ hscan
      exact ⟨hev.entLen, Or.inr rfl, fun _ i => hev.pfxEq i,
        fun h0 => absurd (show ((-1 : Int) = 0) from h0) (by decide)⟩
    | done s' acc =>
      have hev : Evolves s s' := addScan_ok_evolves p f _ s _ _ hscan
      cases hmf : acc.matchFound with
      | true =>
        have hout := (add_eq_match s p f s' acc hscan hmf).symm.trans h
        injection hout with hout
        subst hout
        refine ⟨hev.entLen, Or.inl rfl, fun hr => absurd (show ((0 : Int) = -1) from hr) (by decide), fun _ => ?_⟩
        refine ⟨?_, ?_, ?_, ?_⟩
        · intro i hi q hq hcmp
          exact addScan_done_hasFace p f _ s _ s' acc hscan i
            (List.mem_range.mpr (by rw [← hev.entLen]; exact hi))
            (by rw [← hev.entLen]; exact hi) q (by rw [← hev.pfxEq i]; exact hq) hcmp
        · obtain ⟨i, hmem, hpi⟩ :=
            addScan_exact_of_matchFound p f _ s _ s' acc hscan rfl hmf
          exact ⟨i, by rw [hev.entLen]; exact List.mem_range.mp hmem,
            by rw [hev.pfxEq i]; exact hpi⟩
        · rw [hev.entLen, freeCount_congr _ (fun i _ => hev.pfxEq i)]
          cases hffv : acc.firstFree with
          | none =>
            have hz : freeCount s (List.range s.entries.length) = 0 :=
              freeCount_eq_zero _ _ (fun i hmem hfree => by
                have hu := addScan_free_unique p f _ s _ s' acc hscan rfl i hmem hfree
                rw [hffv] at hu
                cases hu)
            omega
          | some k0 =>
            exact freeCount_le_one _ _ (List.nodup_range _) k0 (fun i hmem hfree => by
              have hu := addScan_free_unique p f _ s _ s' acc hscan rfl i hmem hfree
              rw [hffv] at hu
              injection hu with hu
              exact hu.symm)
        · exact Or.inl (fun i => hev.pfxEq i)
      | false =>
        cases hff : acc.firstFree with
        | none =>
          have hout := (add_eq_nofree s p f s' acc hscan hmf hff).symm.trans h
          injection hout with hout
          subst hout
          exact ⟨hev.entLen, Or.inr rfl, fun _ i => hev.pfxEq i,
            fun h0 => absurd (show ((-1 : Int) = 0) from h0) (by decide)⟩
        | some k =>
          have korigin := addScan_firstFree_origin p f _ s _ s' acc k hscan hff
          have kfacts : k ∈ List.range s.entries.length ∧ (getEntry s k).pfx = none := by
            rcases korigin with h1 | h1
            · cases h1
            · exact h1
          have klt : k < s.entries.length := List.mem_range.mp kfacts.1
          have kfree : (getEntry s k).pfx = none := kfacts.2
          have klt' : k < s'.entries.length := by rw [hev.entLen]; exact klt
          have hs1len : (setEntry s' k
              (⟨some p, ndn_name_get_size_from_block p, []⟩ : FibEntry)).entries.length =
              s.entries.length := by
            rw [entries_length_setEntry, hev.entLen]
          have hs1pfx_self : (getEntry (setEntry s' k
              (⟨some p, ndn_name_get_size_from_block p, []⟩ : FibEntry)) k).pfx = some p := by
            rw [getEntry_setEntry_eq _ _ _ klt']
          have hs1pfx_ne : ∀ i, i ≠ k → (getEntry (setEntry s' k
              (⟨some p, ndn_name_get_size_from_block p, []⟩ : FibEntry)) i).pfx =
              (getEntry s i).pfx := by
            intro i hik
            rw [getEntry_setEntry_ne _ _ _ _ (fun e => hik e.symm), hev.pfxEq i]
          have hnoexact : ∀ i < s.entries.length, ∀ q, (getEntry s i).pfx = some q →
              q ≠ p := by
            intro i hi q hq heq
            have hcq : ndn_name_compare_block p q = 0 := by
              rw [heq, cmpBlock_self]
            exact addScan_no_exact p f _ s _ s' acc hscan hmf i
              (List.mem_range.mpr hi) q hq hcq
          have hnofree : ∀ i < s.entries.length, i ≠ k → (getEntry s i).pfx ≠ none := by
            intro i hi hik hfree
            have hu := addScan_free_unique p f _ s _ s' acc hscan rfl i
              (List.mem_range.mpr hi) hfree
            rw [hff] at hu
            injection hu with hu
            exact hik hu.symm
          rcases hatt : _fib_entry_add_face (setEntry s' k
              (⟨some p, ndn_name_get_size_from_block p, []⟩ : FibEntry)) k f with ⟨s2, b2⟩
          have klt1 : k < (setEntry s' k
              (⟨some p, ndn_name_get_size_from_block p, []⟩ : FibEntry)).entries.length := by
            rw [hs1len]
            exact klt
          cases b2 with
          | false =>
            have hout := (add_eq_new_attach_fail s p f s' s2 acc k hscan hmf hff hatt).symm.trans h
            injection hout with hout
            subst hout
            have hs2eq : s2 = setEntry s' k
                (⟨some p, ndn_name_get_size_from_block p, []⟩ : FibEntry) := by
              have hf := addFace_fail_state _ k f (by rw [hatt])
              rw [hatt] at hf
              exact hf
            have hlen2 : (setEntry s2 k FibEntry.freeSlot).entries.length = s.entries.length := by
              rw [entries_length_setEntry, hs2eq, hs1len]
            refine ⟨hlen2, Or.inr rfl, fun _ i => ?_, fun h0 => absurd (show ((-1 : Int) = 0) from h0) (by decide)⟩
            by_cases hik : i = k
            · subst hik
              rw [getEntry_setEntry_eq _ _ _ (by rw [hs2eq, hs1len]; exact klt), kfree]
              rfl
            · rw [getEntry_setEntry_ne _ _ _ _ (fun e => hik e.symm), hs2eq, hs1pfx_ne i hik]
          | true =>
            have hev12 : Evolves (setEntry s' k
                (⟨some p, ndn_name_get_size_from_block p, []⟩ : FibEntry)) s2 := by
              have he := addFace_evolves (setEntry s' k
                (⟨some p, ndn_name_get_size_from_block p, []⟩ : FibEntry)) k f
              rw [hatt] at he
              exact he
            have hhf2 : hasFace s2 k f = true := by
              have hf := addFace_hasFace (setEntry s' k
                (⟨some p, ndn_name_get_size_from_block p, []⟩ : FibEntry)) k f klt1
                (by rw [hatt])
              rw [hatt] at hf
              exact hf
            have hsucc : ∀ sf : FibState, Evolves s2 sf →
                sf.entries.length = s.entries.length ∧
                ((∀ i < sf.entries.length, ∀ q, (getEntry sf i).pfx = some q →
                  (ndn_name_compare_block p q = 0 ∨ ndn_name_compare_block p q = -2) →
                  hasFace sf i f = true) ∧
                (∃ i < sf.entries.length, (getEntry sf i).pfx = some p) ∧
                freeCount sf (List.range sf.entries.length) ≤ 1 ∧
                ((∀ i, (getEntry sf i).pfx = (getEntry s i).pfx) ∨
                 (∃ k' < s.entries.length, (getEntry s k').pfx = none ∧
                   (getEntry sf k').pfx = some p ∧
                   (∀ i, i ≠ k' → (getEntry sf i).pfx = (getEntry s i).pfx) ∧
                   (∀ i < s.entries.length, ∀ q, (getEntry s i).pfx = some q → q ≠ p)))) := by
              intro sf hev2f
              have hlenf : sf.entries.length = s.entries.length := by
                rw [hev2f.entLen, hev12.entLen, hs1len]
              have hpfxf_self : (getEntry sf k).pfx = some p := by
                rw [hev2f.pfxEq k, hev12.pfxEq k, hs1pfx_self]
              have hpfxf_ne : ∀ i, i ≠ k → (getEntry sf i).pfx = (getEntry s i).pfx := by
                intro i hik
                rw [hev2f.pfxEq i, hev12.pfxEq i, hs1pfx_ne i hik]
              refine ⟨hlenf, ?_, ⟨k, by rw [hlenf]; exact klt, hpfxf_self⟩, ?_, ?_⟩
              · intro i hi q hq hcmp
                by_cases hik : i = k
                · subst hik
                  exact hasFace_mono hev2f i f hhf2
                · have hqs : (getEntry s i).pfx = some q := by
                    rw [← hpfxf_ne i hik]
                    exact hq
                  have hil : i < s.entries.length := by rw [← hlenf]; exact hi
                  have hsp : hasFace s' i f = true :=
                    addScan_done_hasFace p f _ s _ s' acc hscan i
                      (List.mem_range.mpr hil) hil q hqs hcmp
                  have hs1' : hasFace (setEntry s' k
                      (⟨some p, ndn_name_get_size_from_block p, []⟩ : FibEntry)) i f = true := by
                    rw [hasFace_setEntry_ne _ _ _ _ _ (fun e => hik e.symm)]
                    exact hsp
                  exact hasFace_mono hev2f i f (hasFace_mono hev12 i f hs1')
              · rw [hlenf]
                have hz : freeCount sf (List.range s.entries.length) = 0 :=
                  freeCount_eq_zero _ _ (fun i hmem hfree => by
                    have hil : i < s.entries.length := List.mem_range.mp hmem
                    by_cases hik : i = k
                    · subst hik
                      rw [hpfxf_self] at hfree
                      cases hfree
                    · rw [hpfxf_ne i hik] at hfree
                      exact hnofree i hil hik hfree)
                omega
              · exact Or.inr ⟨k, klt, kfree, hpfxf_self, hpfxf_ne, hnoexact⟩
            cases hmax : acc.maxIdx with
            | none =>
              have hout := (add_eq_new_nomax s p f s' s2 acc k hscan hmf hff hatt hmax).symm.trans h
              injection hout with hout
              subst hout
              obtain ⟨hlenf, hrest⟩ := hsucc s2 (evolves_refl s2)
              exact ⟨hlenf, Or.inl rfl, fun hr => absurd (show ((0 : Int) = -1) from hr) (by decide), fun _ => hrest⟩
            | some m =>
              rcases hinh : inheritFaces k (getEntry s2 m).fib_faces s2 with ⟨s3, b3⟩
              cases b3 with
              | true =>
                have hout := (add_eq_new_inherit_ok s p f s' s2 s3 acc k m hscan hmf hff hatt
                  hmax hinh).symm.trans h
                injection hout with hout
                subst hout
                have hev23 : Evolves s2 s3 := by
                  have he := inheritFaces_evolves k (getEntry s2 m).fib_faces s2
                  rw [hinh] at he
                  exact he
                obtain ⟨hlenf, hrest⟩ := hsucc s3 hev23
                exact ⟨hlenf, Or.inl rfl, fun hr => absurd (show ((0 : Int) = -1) from hr) (by decide), fun _ => hrest⟩
              | false =>
                have hout := (add_eq_new_inherit_fail s p f s' s2 s3 acc k m hscan hmf hff hatt
                  hmax hinh).symm.trans h
                injection hout with hout
                subst hout
                have hev23 : Evolves s2 s3 := by
                  have he := inheritFaces_evolves k (getEntry s2 m).fib_faces s2
                  rw [hinh] at he
                  exact he
                have hlenf : (fibRemoveEntryCore s3 k).entries.length = s.entries.length := by
                  rw [removeCore_entries_length, hev23.entLen, hev12.entLen, hs1len]
                refine ⟨hlenf, Or.inr rfl, fun _ i => ?_, fun h0 => absurd (show ((-1 : Int) = 0) from h0) (by decide)⟩
                by_cases hik : i = k
                · subst hik
                  rw [removeCore_pfx_self, kfree]
                · rw [removeCore_pfx_ne _ _ _ (fun e => hik e.symm), hev23.pfxEq i,
                    hev12.pfxEq i, hs1pfx_ne i hik]

/-- Claim C3 (amended): for every insert that returns success, every
occupied entry whose prefix has the inserted prefix as a proper ancestor
holds the inserted face in its binding list afterwards. -/
theorem c3_child_inherit_on_success (s : FibState) (p : NdnName) (f : FaceRef)
    (out : AddOutcome) (h : ndn_fib_add s p f = .ok out) (h0 : out.ret = 0) :
    ∀ i < s.entries.length, ∀ q, (getEntry s i).pfx = some q →
      ProperAncestor p q → hasFace out.state i f = true := by
  intro i hi q hq hanc
  obtain ⟨hlen, -, -, hsnap⟩ := add_ok_spec s p f out h
  obtain ⟨hhas, -, -, hmap⟩ := hsnap h0
  have hcmp : ndn_name_compare_block p q = -2 := (cmpBlock_neg_two_iff p q).mpr hanc
  have hqout : (getEntry out.state i).pfx = some q := by
    rcases hmap with hmap | ⟨k, -, hkfree, -, hne, -⟩
    · rw [hmap i]
      exact hq
    · by_cases hik : i = k
      · subst hik
        rw [hq] at hkfree
        cases hkfree
      · rw [hne i hik]
        exact hq
  exact hhas i (by rw [hlen]; exact hi) q hqout (Or.inr hcmp)

/-- Claim C3 witness: with `/a/b → {face 1}` occupied and one free entry
slot, inserting `/a` with face 2 succeeds and the `/a/b` entry holds
face 2 afterwards. -/
theorem c3_child_inherit_witness :
    hasFace (⟨[⟨some [0, 1], 2, [0, 1]⟩, ⟨some [0], 1, [2]⟩],
      [some (FaceRef.face 1), some (FaceRef.face 2), some (FaceRef.face 2)]⟩ : FibState)
      0 (FaceRef.face 2) = true :=
  c3_child_inherit_on_success
    ⟨[⟨some [0, 1], 2, [0]⟩, FibEntry.freeSlot], [some (FaceRef.face 1), none, none]⟩
    [0] (FaceRef.face 2)
    ⟨0, ⟨[⟨some [0, 1], 2, [0, 1]⟩, ⟨some [0], 1, [2]⟩],
      [some (FaceRef.face 1), some (FaceRef.face 2), some (FaceRef.face 2)]⟩, 0, true⟩
    rfl rfl 0 (by decide) [0, 1] rfl (by decide)

/-- A successful insert is a fixed point of re-insertion: running the
same `ndn_fib_add` again on the resulting state succeeds, changes
nothing, and takes the exact-match path. -/
theorem add_idem_step (s : FibState) (p : NdnName) (f : FaceRef) (out : AddOutcome)
    (h : ndn_fib_add s p f = .ok out) (h0 : out.ret = 0) :
    ∃ rel, ndn_fib_add out.state p f = .ok ⟨0, out.state, rel, false⟩ := by
  obtain ⟨hlen, -, -, hsnap⟩ := add_ok_spec s p f out h
  obtain ⟨hhas, hex, hfc, -⟩ := hsnap h0
  obtain ⟨acc', hscan2, hmf2⟩ := addScan_noop p f (List.range out.state.entries.length)
    out.state ⟨none, none, -1, false, 0⟩
    (fun i hmem q hq hcmp => hhas i (List.mem_range.mp hmem) q hq hcmp)
    (Or.inl ⟨rfl, hfc⟩)
  have hmt : acc'.matchFound = true := by
    rw [hmf2]
    obtain ⟨i, hi, hpi⟩ := hex
    simp only [Bool.false_or, List.any_eq_true, decide_eq_true_eq]
    exact ⟨i, List.mem_range.mpr hi, hpi⟩
  exact ⟨acc'.releases, add_eq_match out.state p f out.state acc' hscan2 hmt⟩

/-- Iterating `ndn_fib_add` from a state it maps to itself stays put. -/
theorem addN_fixed (p : NdnName) (f : FaceRef) (st : FibState) (rel : Nat)
    (hfix : ndn_fib_add st p f = .ok ⟨0, st, rel, false⟩) :
    ∀ N, addNState p f st N = .ok st := by
  intro N
  induction N with
  | zero => rfl
  | succ n ihn =>
    show (match ndn_fib_add st p f with
      | .error e => (Except.error e : Except Err FibState)
      | .ok out => addNState p f out.state n) = .ok st
    rw [hfix]
    exact ihn

/-- Claim C7: attaching an already-present face is a no-op that succeeds,
and N ≥ 1 inserts of the same (prefix, face) pair yield exactly the table
state of a single successful insert. -/
theorem c7_add_idempotent :
    (∀ (s : FibState) (i : Nat) (f : FaceRef), hasFace s i f = true →
      _fib_entry_add_face s i f = (s, true)) ∧
    (∀ (s : FibState) (p : NdnName) (f : FaceRef) (out : AddOutcome) (N : Nat),
      ndn_fib_add s p f = .ok out → out.ret = 0 → 1 ≤ N →
      addNState p f s N = .ok out.state) := by
  constructor
  · exact addFace_eq_of_hasFace
  · intro s p f out N h h0 hN
    obtain ⟨M, rfl⟩ : ∃ M, N = M + 1 := ⟨N - 1, by omega⟩
    show (match ndn_fib_add s p f with
      | .error e => (Except.error e : Except Err FibState)
      | .ok out => addNState p f out.state M) = .ok out.state
    rw [h]
    obtain ⟨rel, hfix⟩ := add_idem_step s p f out h h0
    exact addN_fixed p f out.state rel hfix M

/-- Claim C7 witness: inserting `/a` with face 0 three times into a
one-slot table gives exactly the state of inserting it once, and an
attach of the face already present is the identity. -/
theorem c7_add_idempotent_witness :
    _fib_entry_add_face (⟨[⟨some [0], 1, [0]⟩], [some (FaceRef.face 0)]⟩ : FibState)
      0 (FaceRef.face 0) = (⟨[⟨some [0], 1, [0]⟩], [some (FaceRef.face 0)]⟩, true) ∧
    addNState [0] (FaceRef.face 0) (initState 1 1) 3 =
      .ok ⟨[⟨some [0], 1, [0]⟩], [some (FaceRef.face 0)]⟩ :=
  ⟨c7_add_idempotent.1 _ 0 (FaceRef.face 0) (by decide),
   c7_add_idempotent.2 (initState 1 1) [0] (FaceRef.face 0)
     ⟨0, ⟨[⟨some [0], 1, [0]⟩], [some (FaceRef.face 0)]⟩, 0, true⟩ 3 rfl rfl (by decide)⟩

/-- Claim C9 (amended): every insert that fails (returns `-1` rather
than crashing) leaves the entry pool unchanged: same number of slots and
every slot's prefix (hence its occupancy) as before — no half-created
entry survives.  (Bindings added to pre-existing entries by child-inherit
may remain; see the counterexample.) -/
theorem c9_entry_pool_preserved_on_failure (s : FibState) (p : NdnName) (f : FaceRef)
    (out : AddOutcome) (h : ndn_fib_add s p f = .ok out) (h1 : out.ret = -1) :
    out.state.entries.length = s.entries.length ∧
    ∀ i, (getEntry out.state i).pfx = (getEntry s i).pfx := by
  obtain ⟨hlen, -, hfail, -⟩ := add_ok_spec s p f out h
  exact ⟨hlen, hfail h1⟩

/-- Claim C9 witness: the failing insert of `/a` into the full table
holding `/a/b → {face 1}` keeps the entry pool's length and prefixes. -/
theorem c9_entry_pool_preserved_witness :
    (⟨[⟨some [0, 1], 2, [0, 1]⟩],
      [some (FaceRef.face 1), some (FaceRef.face 2)]⟩ : FibState).entries.length =
      c9Full.entries.length ∧
    ∀ i, (getEntry ⟨[⟨some [0, 1], 2, [0, 1]⟩],
      [some (FaceRef.face 1), some (FaceRef.face 2)]⟩ i).pfx = (getEntry c9Full i).pfx :=
  c9_entry_pool_preserved_on_failure c9Full [0] (FaceRef.face 2)
    ⟨-1, ⟨[⟨some [0, 1], 2, [0, 1]⟩], [some (FaceRef.face 1), some (FaceRef.face 2)]⟩, 0, false⟩
    rfl rfl

/-! ### Preservation of the distinct-prefix invariant -/

/-- Entry prefixes after an operation are pointwise either unchanged or
cleared (never newly filled). -/
def PfxShrinks (s s' : FibState) : Prop :=
  s'.entries.length = s.entries.length ∧
  ∀ i, (getEntry s' i).pfx = (getEntry s i).pfx ∨ (getEntry s' i).pfx = none

theorem pfxShrinks_refl (s : FibState) : PfxShrinks s s :=
  ⟨rfl, fun _ => Or.inl rfl⟩

theorem pfxShrinks_trans {s t u : FibState} (h1 : PfxShrinks s t) (h2 : PfxShrinks t u) :
    PfxShrinks s u := by
  refine ⟨h2.1.trans h1.1, fun i => ?_⟩
  rcases h2.2 i with h | h
  · rw [h]
    exact h1.2 i
  · exact Or.inr h

theorem distinct_of_shrinks {s s' : FibState} (hs : PfxShrinks s s')
    (hd : DistinctPrefixes s) : DistinctPrefixes s' := by
  intro i hi j hj hij heq
  have hi' : i < s.entries.length := by rw [← hs.1]; exact hi
  have hj' : j < s.entries.length := by rw [← hs.1]; exact hj
  rcases hs.2 i with hpi | hpi
  · rcases hs.2 j with hpj | hpj
    · rw [hpi]
      rw [hpi, hpj] at heq
      exact hd i hi' j hj' hij heq
    · rw [heq, hpj]
  · exact hpi

theorem setEntry_samepfx_shrinks (s : FibState) (i : Nat) (e : FibEntry)
    (h : e.pfx = (getEntry s i).pfx) : PfxShrinks s (setEntry s i e) := by
  refine ⟨entries_length_setEntry s i e, fun i' => ?_⟩
  by_cases hii : i = i'
  · subst hii
    rcases Nat.lt_or_ge i s.entries.length with hlt | hge
    · rw [getEntry_setEntry_eq _ _ _ hlt]
      exact Or.inl h
    · rw [getEntry_setEntry_oob _ _ _ hge]
      exact Or.inl rfl
  · rw [getEntry_setEntry_ne _ _ _ _ hii]
    exact Or.inl rfl

theorem removeCore_shrinks (s : FibState) (i : Nat) :
    PfxShrinks s (fibRemoveEntryCore s i) := by
  refine ⟨removeCore_entries_length s i, fun i' => ?_⟩
  by_cases hii : i = i'
  · subst hii
    exact Or.inr (removeCore_pfx_self s i)
  · rw [removeCore_pfx_ne _ _ _ hii]
    exact Or.inl rfl

theorem remove_shrinks (s : FibState) (i : Nat) (s' : FibState)
    (h : ndn_fib_remove s i = .ok s') : PfxShrinks s s' := by
  unfold ndn_fib_remove at h
  rcases hp : (getEntry s i).pfx with _ | q
  · rw [hp] at h
    cases h
  · rw [hp] at h
    injection h with h
    subst h
    exact removeCore_shrinks s i

theorem rfScanEntry_shrinks (f : FaceRef) (i : Nat) :
    ∀ (js : List Nat) (s s' : FibState), rfScanEntry f i js s = .ok s' → PfxShrinks s s' := by
  intro js
  induction js with
  | nil =>
    intro s s' h
    injection h with h
    subst h
    exact pfxShrinks_refl s
  | cons j rest ih =>
    intro s s' h
    by_cases hfj : faceAt s j = some f
    · simp only [rfScanEntry, if_pos hfj] at h
      have hsh1 : PfxShrinks s (setEntry s i
          { getEntry s i with fib_faces := (getEntry s i).fib_faces.erase j }) :=
        setEntry_samepfx_shrinks s i _ rfl
      by_cases hempty : (getEntry (setEntry s i
          { getEntry s i with fib_faces := (getEntry s i).fib_faces.erase j }) i).fib_faces = []
      · rw [if_pos hempty] at h
        rcases hpfx : (getEntry (setEntry s i
            { getEntry s i with fib_faces := (getEntry s i).fib_faces.erase j }) i).pfx with _ | q
        · rw [hpfx] at h
          cases h
        · rw [hpfx] at h
          exact pfxShrinks_trans hsh1 (pfxShrinks_trans (removeCore_shrinks _ i) (ih _ _ h))
      · rw [if_neg hempty] at h
        exact pfxShrinks_trans hsh1 (ih _ _ h)
    · simp only [rfScanEntry, if_neg hfj] at h
      exact ih _ _ h

theorem rfOuter_shrinks (f : FaceRef) :
    ∀ (idxs : List Nat) (s s' : FibState), rfOuter f idxs s = .ok s' → PfxShrinks s s' := by
  intro idxs
  induction idxs with
  | nil =>
    intro s s' h
    injection h with h
    subst h
    exact pfxShrinks_refl s
  | cons i rest ih =>
    intro s s' h
    cases hinner : rfScanEntry f i (getEntry s i).fib_faces s with
    | error e =>
      simp only [rfOuter, hinner] at h
      cases h
    | ok s1 =>
      simp only [rfOuter, hinner] at h
      exact pfxShrinks_trans (rfScanEntry_shrinks f i _ s s1 hinner) (ih s1 s' h)

theorem removeFace_shrinks (s : FibState) (f : FaceRef) (s' : FibState)
    (h : ndn_fib_remove_face s f = .ok s') : PfxShrinks s s' :=
  rfOuter_shrinks f _ s s' h

theorem add_distinct (s : FibState) (p : NdnName) (f : FaceRef) (out : AddOutcome)
    (h : ndn_fib_add s p f = .ok out) (hd : DistinctPrefixes s) :
    DistinctPrefixes out.state := by
  obtain ⟨hlen, hret, hfail, hsucc⟩ := add_ok_spec s p f out h
  rcases hret with h0 | h1
  · obtain ⟨-, -, -, hmap⟩ := hsucc h0
    rcases hmap with hmap | ⟨k, klt, kfree, hkp, hne, hnoex⟩
    · exact distinct_of_shrinks ⟨hlen, fun i => Or.inl (hmap i)⟩ hd
    · intro i hi j hj hij heq
      have hi' : i < s.entries.length := by rw [← hlen]; exact hi
      have hj' : j < s.entries.length := by rw [← hlen]; exact hj
      by_cases hik : i = k
      · subst hik
        exfalso
        have hjk : j ≠ i := fun e => hij e.symm
        rw [hkp, hne j hjk] at heq
        exact hnoex j hj' p heq.symm rfl
      · by_cases hjk : j = k
        · subst hjk
          exfalso
          rw [hkp, hne i hik] at heq
          exact hnoex i hi' p heq rfl
        · rw [hne i hik] at heq ⊢
          rw [hne j hjk] at heq
          exact hd i hi' j hj' hij heq
  · exact distinct_of_shrinks ⟨hlen, fun i => Or.inl (hfail h1 i)⟩ hd

theorem runOp_distinct (s : FibState) (op : Op) (s' : FibState)
    (h : runOp s op = .ok s') (hd : DistinctPrefixes s) : DistinctPrefixes s' := by
  cases op with
  | add p f =>
    cases hadd : ndn_fib_add s p f with
    | error e =>
      simp only [runOp, hadd] at h
      cases h
    | ok out =>
      simp only [runOp, hadd] at h
      injection h with h
      subst h
      exact add_distinct s p f out hadd hd
  | remove i =>
    exact distinct_of_shrinks (remove_shrinks s i s' h) hd
  | removeFace f =>
    exact distinct_of_shrinks (removeFace_shrinks s f s' h) hd

theorem runOps_distinct :
    ∀ (ops : List Op) (s s' : FibState), runOps s ops = .ok s' →
      DistinctPrefixes s → DistinctPrefixes s' := by
  intro ops
  induction ops with
  | nil =>
    intro s s' h hd
    injection h with h
    subst h
    exact hd
  | cons op rest ih =>
    intro s s' h hd
    cases hop : runOp s op with
    | error e =>
      simp only [runOps, hop] at h
      cases h
    | ok s1 =>
      simp only [runOps, hop] at h
      exact ih s1 s' h (runOp_distinct s op s1 hop hd)

theorem initState_pfx (ne nf i : Nat) : (getEntry (initState ne nf) i).pfx = none := by
  show ((List.replicate ne FibEntry.freeSlot).getD i FibEntry.freeSlot).pfx = none
  rcases getD_replicate ne i FibEntry.freeSlot FibEntry.freeSlot with h | h <;> rw [h] <;> rfl

theorem initState_distinct (ne nf : Nat) : DistinctPrefixes (initState ne nf) :=
  fun i _ _ _ _ _ => initState_pfx ne nf i

/-- Claim C8: after any sequence of insert, remove and removeFace
operations that runs from the initialized state without crashing, no two
occupied entries hold equal prefixes. -/
theorem c8_distinct_prefixes (ne nf : Nat) (ops : List Op) (s' : FibState)
    (h : runOps (initState ne nf) ops = .ok s') : DistinctPrefixes s' :=
  runOps_distinct ops (initState ne nf) s' h (initState_distinct ne nf)

/-- Claim C8 witness: the state after inserting `/a` into a fresh
one-slot table has pairwise-distinct occupied prefixes. -/
theorem c8_distinct_prefixes_witness :
    DistinctPrefixes ⟨[⟨some [0], 1, [0]⟩], [some (FaceRef.face 0)]⟩ :=
  c8_distinct_prefixes 1 1 [Op.add [0] (FaceRef.face 0)]
    ⟨[⟨some [0], 1, [0]⟩], [some (FaceRef.face 0)]⟩ rfl
